import Mathlib

/-! # Krampus: rule-download pagination and the voting / finalize state machine

A shallow embedding of

* `server/handlers/santa_sync.go`  : `Preflight`, `EventUpload`, `RuleDownload`,
  `Postflight`
* `server/middleware/decompress.go`: `Decompress`
* `server/config/config.go`        : `parseInt`
* `server/services/voting.go`      : `SubmitVote`, `recalculateVotes`,
  `checkAndFinalizeProposal`, `FinalizeProposal`, `AdminApproveProposal`
* `server/handlers/proposals.go`   : `ApproveProposal` (the call of the service and the
  status code it answers with)

The relational store (`database.DB`, SQLite) is a record of its tables, each a list of
rows in insertion order, plus the `sqlite_sequence` counters that `AUTOINCREMENT` keeps.
Every SQL statement of the source is one function on that record.  I/O failures of the
store are outside the model, except for the insert of an uploaded event, whose outcome is an
argument; the other errors are the ones the Go code constructs itself, `sql.ErrNoRows`, and
the failure of a constraint of the schema.  The sync handlers take the time of the call as an argument, in epoch seconds; the
times of the governance tables (`created_at`, `finalized_at`) are not modelled.  Go `int64`
and `int` values are `Int`.
-/

namespace Krampus

/-! ## models -/

/-- Row of table `proposals` (`models.Proposal`). -/
structure Proposal where
  ID : Int
  Identifier : String
  RuleType : String
  ProposedPolicy : String
  CustomMessage : Option String
  CreatedBy : Int
  Status : String
  AllowlistVotes : Int
  BlocklistVotes : Int
deriving DecidableEq, Repr

/-- Row of table `votes` (`models.Vote`). -/
structure Vote where
  ID : Int
  UserID : Int
  ProposalID : Int
  VoteType : String
deriving DecidableEq, Repr

/-- Row of table `rules` (`models.Rule`). -/
structure Rule where
  ID : Int
  Identifier : String
  Policy : String
  RuleType : String
  CustomMessage : Option String
  Comment : Option String
  CreatedBy : Option Int
  ProposalID : Option Int
deriving DecidableEq, Repr

/-- Wire format of a rule in the sync protocol (`models.SantaRule`). -/
structure SantaRule where
  Identifier : String
  Policy : String
  RuleType : String
  CustomMsg : Option String
  CustomURL : Option String
deriving DecidableEq, Repr

def ProposalStatusPending : String := "PENDING"
def ProposalStatusApproved : String := "APPROVED"
def ProposalStatusRejected : String := "REJECTED"

def PolicyAllowlist : String := "ALLOWLIST"
def PolicyBlocklist : String := "BLOCKLIST"

def VoteTypeAllowlist : String := "ALLOWLIST"
def VoteTypeBlocklist : String := "BLOCKLIST"

/-- The errors the service code builds; one constructor per `fmt.Errorf` site, plus
`sql.ErrNoRows`. -/
inductive Err where
  /-- `sql.ErrNoRows` -/
  | ErrNoRows
  /-- `"invalid vote type: %s"` -/
  | invalidVoteType (voteType : String)
  /-- `"proposal not found"` -/
  | proposalNotFound
  /-- `"cannot vote on proposal with status: %s"` -/
  | cannotVote (status : String)
  /-- `"failed to recalculate votes: %w"` -/
  | failedToRecalculate (cause : Err)
  /-- `"invalid policy: %s"` -/
  | invalidPolicy (policy : String)
  /-- `"failed to fetch proposal: %w"` -/
  | failedToFetchProposal (cause : Err)
  /-- `"proposal already finalized with status: %s"` -/
  | alreadyFinalized (status : String)
deriving DecidableEq, Repr

/-- Row of table `machines` (`models.Machine`).  The three times are epoch seconds;
`EnrolledAt` has `DEFAULT CURRENT_TIMESTAMP`. -/
structure Machine where
  ID : Int
  MachineID : String
  SerialNumber : Option String
  Hostname : Option String
  OSVersion : Option String
  OSBuild : Option String
  SantaVersion : Option String
  ClientMode : Option String
  EnrolledAt : Int
  LastSync : Option Int
  LastPreflightSync : Option Int
deriving DecidableEq, Repr

/-- Row of table `events`, with the columns `EventUpload` writes (`models.Event`). -/
structure Event where
  ID : Int
  MachineID : String
  FilePath : Option String
  FileHash : String
  ExecutionTime : Int
  Decision : Option String
  ExecutingUser : Option String
  CertSHA256 : Option String
  CertCN : Option String
  BundleID : Option String
  BundleName : Option String
  BundlePath : Option String
  SigningID : Option String
  TeamID : Option String
  QuarantineDataURL : Option String
deriving DecidableEq, Repr

/-- An uploaded event (`models.SantaEvent`), with the fields `EventUpload` reads.
`ExecutionTime` is the value of `int64(event.ExecutionTime)`, whole epoch seconds. -/
structure SantaEvent where
  FileSHA256 : String
  FilePath : String
  ExecutingUser : String
  ExecutionTime : Int
  Decision : String
  CertificateSHA256 : String
  CertificateCN : String
  TeamID : String
  SigningID : String
  BundleID : String
  BundleName : String
  BundlePath : String
  QuarantineDataURL : String
deriving DecidableEq, Repr

def ClientModeMonitor : String := "MONITOR"
def ClientModeLockdown : String := "LOCKDOWN"

/-- What a handler answers: the status code and the JSON body. -/
structure HTTPResponse where
  status : Nat
  body : String
deriving DecidableEq, Repr

/-! ## the store -/

/-- The tables the modelled code touches.  `votesSeq`, `rulesSeq`, `machinesSeq` and
`eventsSeq` are the `sqlite_sequence` entries of the `AUTOINCREMENT` keys. -/
structure DB where
  proposals : List Proposal
  votes : List Vote
  rules : List Rule
  votesSeq : Int
  rulesSeq : Int
  machines : List Machine := []
  events : List Event := []
  machinesSeq : Int := 0
  eventsSeq : Int := 0
deriving DecidableEq, Repr

/-- The key `INTEGER PRIMARY KEY AUTOINCREMENT` gives a new row: one more than the largest
key the table holds or ever held. -/
def nextID (ids : List Int) (seq : Int) : Int :=
  ids.foldl max seq + 1

/-- `SELECT ... FROM proposals WHERE id = ?` read with `QueryRow`: the first matching row,
`none` for `sql.ErrNoRows`. -/
def selectProposal (db : DB) (proposalID : Int) : Option Proposal :=
  db.proposals.find? (fun p => p.ID == proposalID)

/-- The conflict target of the upsert: `UNIQUE(user_id, proposal_id)`. -/
def sameVoteKey (userID proposalID : Int) (v : Vote) : Bool :=
  v.UserID == userID && v.ProposalID == proposalID

/-- `INSERT INTO votes (user_id, proposal_id, vote_type, created_at) VALUES (?, ?, ?, now)
ON CONFLICT(user_id, proposal_id) DO UPDATE SET vote_type = excluded.vote_type, ...`.
SQLite draws the `AUTOINCREMENT` key before it finds the conflict, so the sequence counter
advances also when the statement ends as the update. -/
def upsertVote (db : DB) (userID proposalID : Int) (voteType : String) : DB :=
  if db.votes.any (sameVoteKey userID proposalID) then
    { db with votes := db.votes.map (fun v =>
        if sameVoteKey userID proposalID v then { v with VoteType := voteType } else v),
              votesSeq := nextID (db.votes.map (fun v => v.ID)) db.votesSeq }
  else
    let id := nextID (db.votes.map (fun v => v.ID)) db.votesSeq
    { db with votes := db.votes ++ [{ ID := id, UserID := userID, ProposalID := proposalID,
                                      VoteType := voteType }],
              votesSeq := id }

/-- `SELECT COUNT(*) FROM votes WHERE proposal_id = ? AND vote_type = ?`. -/
def countVotes (db : DB) (proposalID : Int) (voteType : String) : Int :=
  ((db.votes.filter (fun v => v.ProposalID == proposalID && v.VoteType == voteType)).length : Int)

/-- `UPDATE proposals SET allowlist_votes = ?, blocklist_votes = ? WHERE id = ?`. -/
def updateVoteCounts (db : DB) (allowlistVotes blocklistVotes proposalID : Int) : DB :=
  { db with proposals := db.proposals.map (fun p =>
      if p.ID == proposalID then
        { p with AllowlistVotes := allowlistVotes, BlocklistVotes := blocklistVotes }
      else p) }

/-- `UPDATE proposals SET status = ?, finalized_at = ? WHERE id = ?`. -/
def updateStatus (db : DB) (status : String) (proposalID : Int) : DB :=
  { db with proposals := db.proposals.map (fun p =>
      if p.ID == proposalID then { p with Status := status } else p) }

/-- `INSERT INTO rules (identifier, policy, rule_type, custom_message, created_by,
proposal_id) VALUES (?, ?, ?, ?, ?, ?)`; column `comment` stays NULL. -/
def insertRule (db : DB) (identifier policy ruleType : String) (customMessage : Option String)
    (createdBy proposalID : Int) : DB :=
  let id := nextID (db.rules.map (fun r => r.ID)) db.rulesSeq
  { db with rules := db.rules ++ [{ ID := id, Identifier := identifier, Policy := policy,
                                    RuleType := ruleType, CustomMessage := customMessage,
                                    Comment := none, CreatedBy := some createdBy,
                                    ProposalID := some proposalID }],
            rulesSeq := id }

/-! ## services/voting.go -/

/-- `recalculateVotes`: both counters are recounted from the ledger and written back. -/
def recalculateVotes (db : DB) (proposalID : Int) : DB × Option Err :=
  let allowlistVotes := countVotes db proposalID VoteTypeAllowlist
  let blocklistVotes := countVotes db proposalID VoteTypeBlocklist
  (updateVoteCounts db allowlistVotes blocklistVotes proposalID, none)

/-- The part of `FinalizeProposal` before `database.DB.Begin()`: validate the policy, fetch
the proposal, check that it is still pending.  Reads only. -/
def finalizeFetch (db : DB) (proposalID : Int) (policy : String) : Except Err Proposal :=
  if policy != PolicyAllowlist && policy != PolicyBlocklist then
    .error (.invalidPolicy policy)
  else
    match selectProposal db proposalID with
    | none => .error (.failedToFetchProposal .ErrNoRows)
    | some proposal =>
      if proposal.Status != ProposalStatusPending then
        .error (.alreadyFinalized proposal.Status)
      else
        .ok proposal

/-- The transaction of `FinalizeProposal`: the status update and the rule insert, committed
together.  `proposal` is the row fetched before the transaction began. -/
def finalizeTx (db : DB) (proposal : Proposal) (proposalID : Int) (policy : String) : DB :=
  let tx := updateStatus db ProposalStatusApproved proposalID
  insertRule tx proposal.Identifier policy proposal.RuleType proposal.CustomMessage
    proposal.CreatedBy proposalID

/-- `FinalizeProposal`. -/
def FinalizeProposal (db : DB) (proposalID : Int) (policy : String) : DB × Option Err :=
  match finalizeFetch db proposalID policy with
  | .error e => (db, some e)
  | .ok proposal => (finalizeTx db proposal proposalID policy, none)

/-- `checkAndFinalizeProposal`; `threshold` is `config.AppConfig.VoteThreshold`. -/
def checkAndFinalizeProposal (threshold : Int) (db : DB) (proposalID : Int) : DB × Option Err :=
  match selectProposal db proposalID with
  | none => (db, some .ErrNoRows)
  | some proposal =>
    if proposal.Status != ProposalStatusPending then
      (db, none)
    else if proposal.AllowlistVotes ≥ threshold then
      FinalizeProposal db proposalID PolicyAllowlist
    else if proposal.BlocklistVotes ≥ threshold then
      FinalizeProposal db proposalID PolicyBlocklist
    else
      (db, none)

/-- `SubmitVote`. -/
def SubmitVote (threshold : Int) (db : DB) (userID proposalID : Int) (voteType : String) :
    DB × Option Err :=
  if voteType != VoteTypeAllowlist && voteType != VoteTypeBlocklist then
    (db, some (.invalidVoteType voteType))
  else
    match selectProposal db proposalID with
    | none => (db, some .proposalNotFound)
    | some p =>
      if p.Status != ProposalStatusPending then
        (db, some (.cannotVote p.Status))
      else
        let db1 := upsertVote db userID proposalID voteType
        match recalculateVotes db1 proposalID with
        | (db2, some e) => (db2, some (.failedToRecalculate e))
        | (db2, none) =>
          -- the error of the threshold check is logged, not returned
          ((checkAndFinalizeProposal threshold db2 proposalID).1, none)

/-- `AdminApproveProposal`. -/
def AdminApproveProposal (db : DB) (proposalID : Int) (policy : String) : DB × Option Err :=
  FinalizeProposal db proposalID policy

/-! ## handlers/proposals.go -/

/-- `ApproveProposal` from the call of the service on: the HTTP status it answers with. -/
def ApproveProposal (db : DB) (proposalID : Int) (policy : String) : DB × Nat :=
  match AdminApproveProposal db proposalID policy with
  | (db1, some _) => (db1, 400)
  | (db1, none) => (db1, 200)

/-! ## handlers/santa_sync.go -/

/-- Body of a rule-download response: `rules` and the optional `cursor`. -/
structure RuleDownloadResponse where
  rules : List SantaRule
  cursor : Option Int
deriving DecidableEq, Repr

/-- `SELECT id, identifier, policy, rule_type, custom_message FROM rules WHERE id > ?
ORDER BY id LIMIT ?`. -/
def selectRulesAfter (rules : List Rule) (startID : Int) (batchSize : Nat) : List Rule :=
  ((rules.filter (fun r => r.ID > startID)).insertionSort (fun a b => a.ID ≤ b.ID)).take
    batchSize

/-- `rows.Scan(&id, &r.Identifier, &r.Policy, &r.RuleType, &r.CustomMsg)`.  The three text
columns are `NOT NULL` and `custom_message` goes to a pointer, so the scan does not fail. -/
def scanRule (row : Rule) : Int × SantaRule :=
  (row.ID, { Identifier := row.Identifier, Policy := row.Policy, RuleType := row.RuleType,
             CustomMsg := row.CustomMessage, CustomURL := none })

/-- One turn of the `for rows.Next()` loop: append the scanned rule, remember its id. -/
def scanStep (acc : List SantaRule × Int) (row : Rule) : List SantaRule × Int :=
  let (id, r) := scanRule row
  (acc.1 ++ [r], id)

/-- The start id `RuleDownload` queries from.  The branch on a non-empty cursor has an empty
body, so the value is `0` on both paths. -/
def ruleDownloadStartID (cursor : String) : Int :=
  if cursor != "" then 0 else 0

/-- The rows the query of `RuleDownload` returns. -/
def ruleDownloadRows (rules : List Rule) (cursor : String) : List Rule :=
  selectRulesAfter rules (ruleDownloadStartID cursor) 100

/-- `RuleDownload`; `cursor` is `input.Cursor`, `""` when the request has none. -/
def RuleDownload (rules : List Rule) (cursor : String) : RuleDownloadResponse :=
  let batchSize : Nat := 100
  let rows := selectRulesAfter rules (ruleDownloadStartID cursor) batchSize
  let (santaRules, lastID) := rows.foldl scanStep (([] : List SantaRule), (0 : Int))
  { rules := santaRules,
    cursor := if santaRules.length == batchSize then some lastID else none }

/-- A sync client paging through the rules: it calls `RuleDownload`, first without a cursor,
then echoing back the cursor of the previous response, until a response omits the cursor;
the result is the concatenation of the pages.  `none`: the calls did not end within `fuel`
requests. -/
def downloadAllRules (rules : List Rule) : Nat → String → Option (List SantaRule)
  | 0, _ => none
  | fuel + 1, cursor =>
    let resp := RuleDownload rules cursor
    match resp.cursor with
    | none => some resp.rules
    | some next =>
      (downloadAllRules rules fuel (toString next)).map (fun rest => resp.rules ++ rest)

/-! ## sequential histories of the governance calls -/

/-- One call of the voting service. -/
inductive Op where
  | submitVote (userID proposalID : Int) (voteType : String)
  | finalize (proposalID : Int) (policy : String)
  | adminApprove (proposalID : Int) (policy : String)
deriving DecidableEq, Repr

/-- The store after one call (the returned error is dropped). -/
def applyOp (threshold : Int) (db : DB) : Op → DB
  | .submitVote userID proposalID voteType => (SubmitVote threshold db userID proposalID voteType).1
  | .finalize proposalID policy => (FinalizeProposal db proposalID policy).1
  | .adminApprove proposalID policy => (AdminApproveProposal db proposalID policy).1

/-- The store after a series of calls, one after the other. -/
def runOps (threshold : Int) (db : DB) (ops : List Op) : DB :=
  ops.foldl (applyOp threshold) db

/-- Number of rules whose `proposal_id` is the given proposal. -/
def linkedRules (db : DB) (proposalID : Int) : Nat :=
  (db.rules.filter (fun r => r.ProposalID == some proposalID)).length

/-- Every proposal is pending with no rule linked to it, or approved with exactly one. -/
def Consistent (db : DB) : Prop :=
  ∀ p ∈ db.proposals,
    (p.Status = ProposalStatusPending ∧ linkedRules db p.ID = 0) ∨
    (p.Status = ProposalStatusApproved ∧ linkedRules db p.ID = 1)

/-! ## interleaved `FinalizeProposal` calls

One call of `FinalizeProposal` makes two accesses to the store: the `SELECT` through
`database.DB.QueryRow`, outside any transaction, and then the transaction that updates the
status and inserts the rule.  Between the two the call holds the fetched row in local
memory.  The transaction is taken as one indivisible step. -/

/-- Where a running `FinalizeProposal` call stands. -/
inductive FinalizeCall where
  /-- called, nothing read yet -/
  | start (proposalID : Int) (policy : String)
  /-- the proposal is fetched and was pending; the transaction has not begun -/
  | fetched (proposal : Proposal) (proposalID : Int) (policy : String)
  /-- returned -/
  | done (err : Option Err)
deriving DecidableEq, Repr

/-- The next store access of a call. -/
def stepCall (db : DB) : FinalizeCall → DB × FinalizeCall
  | .start proposalID policy =>
    match finalizeFetch db proposalID policy with
    | .error e => (db, .done (some e))
    | .ok proposal => (db, .fetched proposal proposalID policy)
  | .fetched proposal proposalID policy =>
    (finalizeTx db proposal proposalID policy, .done none)
  | .done err => (db, .done err)

/-- Two calls running against one store; the schedule says whose access comes next
(`false`: the first call, `true`: the second). -/
def runSchedule (db : DB) (a b : FinalizeCall) : List Bool → DB × FinalizeCall × FinalizeCall
  | [] => (db, a, b)
  | false :: rest => runSchedule (stepCall db a).1 (stepCall db a).2 b rest
  | true :: rest => runSchedule (stepCall db b).1 a (stepCall db b).2 rest

/-! ## the `machines` and `events` tables -/

/-- `strings.ToUpper` on a string of ASCII characters.  A character outside ASCII is kept
as it is, where Go maps the letters among them too (U+0131 to I): on a string with such a letter
the value here can differ from Go's, and it agrees with Go's whenever it is a string of
ASCII characters only. -/
def ToUpper (s : String) : String :=
  String.mk (s.data.map Char.toUpper)

/-- `strings.ToLower` on a string of ASCII characters.  A character outside ASCII is kept
as it is, where Go maps the letters among them too (U+0130 to i): on a string with such a letter
the value here can differ from Go's, and it agrees with Go's whenever it is a string of
ASCII characters only. -/
def ToLower (s : String) : String :=
  String.mk (s.data.map Char.toLower)

/-- `strings.Contains`. -/
def stringsContains (s substr : String) : Bool :=
  s.data.tails.any (fun t => substr.data.isPrefixOf t)

/-- `SELECT ... FROM machines WHERE machine_id = ?`: the row of a device, if any. -/
def selectMachine (db : DB) (machineID : String) : Option Machine :=
  db.machines.find? (fun m => m.MachineID == machineID)

/-- `COALESCE(NULLIF(excluded.col, ''), col)`: the incoming text unless it is empty, else
the stored value. -/
def coalesceNullif (incoming : String) (stored : Option String) : Option String :=
  if incoming == "" then stored else some incoming

/-- `CHECK(client_mode IN ('MONITOR', 'LOCKDOWN'))` of table `machines`; NULL passes, as in
SQL, every other text fails, the empty text included. -/
def checkClientMode (clientMode : Option String) : Bool :=
  match clientMode with
  | none => true
  | some mode => mode == ClientModeMonitor || mode == ClientModeLockdown

/-- `INSERT INTO machines (machine_id, last_preflight_sync) VALUES (?, datetime('now'))
ON CONFLICT(machine_id) DO UPDATE SET last_preflight_sync = datetime('now')`.
The row to insert has NULL in every other column, `enrolled_at` apart.  The sequence
counter advances also when the statement ends as the update (see `upsertVote`). -/
def upsertPreflightStamp (db : DB) (machineID : String) (now : Int) : DB :=
  if db.machines.any (fun m => m.MachineID == machineID) then
    { db with machines := db.machines.map (fun m =>
        if m.MachineID == machineID then { m with LastPreflightSync := some now } else m),
              machinesSeq := nextID (db.machines.map (fun m => m.ID)) db.machinesSeq }
  else
    let id := nextID (db.machines.map (fun m => m.ID)) db.machinesSeq
    { db with machines := db.machines ++ [{ ID := id, MachineID := machineID,
                                            SerialNumber := none, Hostname := none,
                                            OSVersion := none, OSBuild := none,
                                            SantaVersion := none, ClientMode := none,
                                            EnrolledAt := now, LastSync := none,
                                            LastPreflightSync := some now }],
              machinesSeq := id }

/-- `INSERT INTO machines (machine_id, serial_number, hostname, os_version, os_build,
santa_version, client_mode, last_preflight_sync) VALUES (?, ?, ?, ?, ?, ?, ?, datetime('now'))
ON CONFLICT(machine_id) DO UPDATE SET serial_number = COALESCE(NULLIF(excluded.serial_number,
''), serial_number), ..., client_mode = CASE WHEN excluded.client_mode != '' THEN
excluded.client_mode ELSE client_mode END, last_preflight_sync = datetime('now')`.
The CHECK constraint is tested on the row to insert, whose `client_mode` is the bound text,
before the conflict on `machine_id` is looked for; `none` is the constraint failure, which
leaves the table and the sequence counter as they were.  A statement that passes the CHECK
advances the sequence counter also when it ends as the update. -/
def upsertMachine (db : DB) (machineID serialNumber hostname osVersion osBuild santaVersion
    clientMode : String) (now : Int) : Option DB :=
  if !checkClientMode (some clientMode) then
    none
  else if db.machines.any (fun m => m.MachineID == machineID) then
    some { db with machines := db.machines.map (fun m =>
        if m.MachineID == machineID then
          { m with SerialNumber := coalesceNullif serialNumber m.SerialNumber,
                   Hostname := coalesceNullif hostname m.Hostname,
                   OSVersion := coalesceNullif osVersion m.OSVersion,
                   OSBuild := coalesceNullif osBuild m.OSBuild,
                   SantaVersion := coalesceNullif santaVersion m.SantaVersion,
                   ClientMode := if clientMode != "" then some clientMode else m.ClientMode,
                   LastPreflightSync := some now }
        else m),
                   machinesSeq := nextID (db.machines.map (fun m => m.ID)) db.machinesSeq }
  else
    let id := nextID (db.machines.map (fun m => m.ID)) db.machinesSeq
    some { db with machines := db.machines ++ [{ ID := id, MachineID := machineID,
                                                 SerialNumber := some serialNumber,
                                                 Hostname := some hostname,
                                                 OSVersion := some osVersion,
                                                 OSBuild := some osBuild,
                                                 SantaVersion := some santaVersion,
                                                 ClientMode := some clientMode,
                                                 EnrolledAt := now, LastSync := none,
                                                 LastPreflightSync := some now }],
                   machinesSeq := id }

/-- `UPDATE machines SET last_sync = datetime('now') WHERE machine_id = ?`. -/
def updateLastSync (db : DB) (machineID : String) (now : Int) : DB :=
  { db with machines := db.machines.map (fun m =>
      if m.MachineID == machineID then { m with LastSync := some now } else m) }

/-- The row `EventUpload` writes for an event; a text column gets the Go string as it is,
never NULL. -/
def eventRow (id : Int) (machineID : String) (event : SantaEvent) : Event :=
  { ID := id, MachineID := machineID, FilePath := some event.FilePath,
    FileHash := event.FileSHA256, ExecutionTime := event.ExecutionTime,
    Decision := some event.Decision, ExecutingUser := some event.ExecutingUser,
    CertSHA256 := some event.CertificateSHA256, CertCN := some event.CertificateCN,
    BundleID := some event.BundleID, BundleName := some event.BundleName,
    BundlePath := some event.BundlePath, SigningID := some event.SigningID,
    TeamID := some event.TeamID, QuarantineDataURL := some event.QuarantineDataURL }

/-- `INSERT INTO events (machine_id, file_path, file_hash, execution_time, decision, ...)
VALUES (...)`.  No constraint of the table can reject the row (foreign keys are not switched
on for the connection), so a failure comes from the store itself: `accepted` says whether
the store takes this insert; `none` is the failure. -/
def insertEvent (db : DB) (machineID : String) (event : SantaEvent) (accepted : Bool) :
    Option DB :=
  if accepted then
    let id := nextID (db.events.map (fun e => e.ID)) db.eventsSeq
    some { db with events := db.events ++ [eventRow id machineID event], eventsSeq := id }
  else
    none

/-! ## handlers/santa_sync.go: Preflight, EventUpload, Postflight -/

/-- The bound request struct of `Preflight`.  A field the request does not carry, or that
the binder did not reach before it gave up on the body, has its zero value. -/
structure PreflightInput where
  Hostname : String
  OSVersion : String
  OSBuild : String
  SantaVersion : String
  SerialNumber : String
  ClientModeInt : Int
  ClientModeString : String
  ModelID : String
deriving DecidableEq, Repr

/-- "Convert client mode to standard format for database" (`Preflight`, the computation of
`clientMode`). -/
def computeClientMode (input : PreflightInput) : String :=
  if input.ClientModeString != "" then
    ToUpper input.ClientModeString
  else if input.ClientModeInt == 1 then
    "MONITOR"
  else if input.ClientModeInt == 2 then
    "LOCKDOWN"
  else
    ""

/-- `Preflight`, from the bound input on; `now` is the time of the call.  An error of the
store is logged and dropped: the answer is 200 with the sync configuration either way. -/
def Preflight (db : DB) (machineID : String) (input : PreflightInput) (now : Int) :
    DB × HTTPResponse :=
  let clientMode := computeClientMode input
  let response : HTTPResponse :=
    { status := 200,
      body := "\x7b\"allowed_path_regex\":\"\",\"batch_size\":100,\"blocked_path_regex\":\"\"," ++
        "\"clean_sync\":false,\"client_mode\":\"LOCKDOWN\",\"enable_all_event_upload\":false," ++
        "\"enable_bundles\":true,\"enable_transitive_rules\":false,\"upload_logs_url\":\"\"\x7d" }
  if clientMode == "" && input.SerialNumber == "" && input.Hostname == "" then
    (upsertPreflightStamp db machineID now, response)
  else
    match upsertMachine db machineID input.SerialNumber input.Hostname input.OSVersion
        input.OSBuild input.SantaVersion clientMode now with
    | some db1 => (db1, response)
    | none => (db, response)

/-- The acknowledgement of `EventUpload`. -/
def eventUploadAck : HTTPResponse :=
  { status := 200, body := "\x7b\"event_upload_bundle_binaries\":[]\x7d" }

/-- One turn of the loop of `EventUpload`: on a failed insert the event is skipped
(`continue`), otherwise `eventCount` goes up. -/
def eventUploadStep (machineID : String) (acc : DB × Nat) (attempt : SantaEvent × Bool) :
    DB × Nat :=
  match insertEvent acc.1 machineID attempt.1 attempt.2 with
  | none => acc
  | some db1 => (db1, acc.2 + 1)

/-- `EventUpload`.  `input` is `none` when the body does not bind as JSON; otherwise it is
the list of events, each with the outcome of its insert (see `insertEvent`).  The result
is the store, the response and `eventCount`. -/
def EventUpload (db : DB) (machineID : String) (input : Option (List (SantaEvent × Bool))) :
    DB × HTTPResponse × Nat :=
  match input with
  | none => (db, eventUploadAck, 0)
  | some events =>
    let (db1, eventCount) := events.foldl (eventUploadStep machineID) (db, 0)
    (db1, eventUploadAck, eventCount)

/-- The write `RuleDownload` makes: "Update last sync time". -/
def ruleDownloadStore (db : DB) (machineID : String) (now : Int) : DB :=
  updateLastSync db machineID now

/-- `Postflight`. -/
def Postflight (db : DB) (machineID : String) (now : Int) : DB × HTTPResponse :=
  (updateLastSync db machineID now, { status := 200, body := "{}" })

/-! ## middleware/decompress.go -/

/-- A request body; every element is a byte, a number below 256. -/
abbrev Bytes := List Nat

/-- The decoders of `compress/gzip`, `compress/zlib` and `compress/flate`, each taken as
the reader constructor followed by `io.ReadAll`: `none` when either returns an error,
otherwise the decoded bytes. -/
structure Codecs where
  gzipDecode : Bytes → Option Bytes
  zlibDecode : Bytes → Option Bytes
  flateDecode : Bytes → Option Bytes

/-- How `Decompress` leaves a request. -/
inductive DecompressResult where
  /-- `c.Next()`: the handler runs, with this body and this `Content-Encoding` header -/
  | next (body : Bytes) (contentEncoding : String)
  /-- `c.Next()` after the body was read to its end and closed, and not put back -/
  | nextConsumed (contentEncoding : String)
  /-- `c.AbortWithStatusJSON(status, gin.H{"error": message})` -/
  | abort (status : Nat) (message : String)
  /-- a run-time panic (index out of range) -/
  | panic
deriving DecidableEq, Repr

/-- `Decompress`, from the read body on (`io.ReadAll(c.Request.Body)` succeeded). -/
def Decompress (codecs : Codecs) (encoding contentType : String) (bodyBytes : Bytes) :
    DecompressResult :=
  if encoding == "" && stringsContains contentType "json" then
    -- the log line reads `bodyBytes[0]` before the length is tested
    match bodyBytes with
    | [] => .panic
    | first :: _ =>
      if bodyBytes.length > 0 && (first == 123 || first == 91) then
        .next bodyBytes encoding
      else
        match (match codecs.gzipDecode bodyBytes with
               | some decompressed => if decompressed.length > 0 then some decompressed else none
               | none => none) with
        | some decompressed => .next decompressed encoding
        | none =>
          match codecs.flateDecode bodyBytes with
          | some decompressed =>
            if decompressed.length > 0 then .next decompressed encoding
            else .next bodyBytes encoding
          | none => .next bodyBytes encoding
  else if encoding == "" then
    .next bodyBytes encoding
  else
    match ToLower encoding with
    | "deflate" =>
      let decompressed : Bytes :=
        match codecs.zlibDecode bodyBytes with
        | some d => if d.length > 0 then d else []
        | none => []
      if decompressed.length == 0 then
        match codecs.flateDecode bodyBytes with
        | none => .abort 400 "Failed to decompress deflate"
        | some d => .next d ""
      else
        .next decompressed ""
    | "gzip" =>
      match codecs.gzipDecode bodyBytes with
      | none => .abort 400 "Failed to decompress gzip"
      | some d => .next d ""
    | _ => .nextConsumed encoding

/-- The bound input with every field at its zero value: entirely empty telemetry, as after
an empty body or a body of which the binder set no field. -/
def emptyPreflightInput : PreflightInput :=
  { Hostname := "", OSVersion := "", OSBuild := "", SantaVersion := "", SerialNumber := "",
    ClientModeInt := 0, ClientModeString := "", ModelID := "" }

/-- A stored text value that is neither NULL nor the empty text. -/
def nonEmpty (value : Option String) : Prop :=
  value ≠ none ∧ value ≠ some ""

/-- Both counters of every proposal are the counts of its vote rows in the ledger. -/
def CountersMatch (db : DB) : Prop :=
  ∀ p ∈ db.proposals,
    p.AllowlistVotes = countVotes db p.ID VoteTypeAllowlist ∧
    p.BlocklistVotes = countVotes db p.ID VoteTypeBlocklist

/-! ## the compression formats, as far as the round-trip claims need them -/

/-- The encoders a client uses: `gzip p`, zlib-wrapped deflate of `p`, raw deflate of `p`. -/
structure Encoders where
  gzip : Bytes → Bytes
  zlib : Bytes → Bytes
  flate : Bytes → Bytes

/-- What the round trips take from the compression library: each decoder undoes its
encoder, a raw deflate stream is not accepted as a zlib stream (it has no zlib header),
and a gzip stream begins with the magic byte 0x1f. -/
structure CodecLaws (codecs : Codecs) (enc : Encoders) : Prop where
  gzip_decode : ∀ p, codecs.gzipDecode (enc.gzip p) = some p
  zlib_decode : ∀ p, codecs.zlibDecode (enc.zlib p) = some p
  flate_decode : ∀ p, codecs.flateDecode (enc.flate p) = some p
  zlib_rejects_flate : ∀ p, codecs.zlibDecode (enc.flate p) = none
  gzip_magic : ∀ p, (enc.gzip p).head? = some 31

/-- A stand-in for the encoders: the magic bytes of the format, then the payload as it is. -/
def framingEncoders : Encoders :=
  { gzip := fun p => 31 :: 139 :: p,
    zlib := fun p => 120 :: 156 :: p,
    flate := fun p => 1 :: p }

/-- The decoders that go with `framingEncoders`. -/
def framingCodecs : Codecs :=
  { gzipDecode := fun b => match b with
      | 31 :: 139 :: p => some p
      | _ => none,
    zlibDecode := fun b => match b with
      | 120 :: 156 :: p => some p
      | _ => none,
    flateDecode := fun b => match b with
      | 1 :: p => some p
      | _ => none }

/-- The zlib stream of the empty payload, `78 9c 03 00 00 00 00 01`. -/
def emptyZlibStream : Bytes := [120, 156, 3, 0, 0, 0, 0, 1]

/-- The gzip stream of the one-byte payload "a" (no name, no time). -/
def gzipStreamA : Bytes :=
  [31, 139, 8, 0, 0, 0, 0, 0, 2, 3, 75, 4, 0, 67, 190, 183, 232, 1, 0, 0, 0]

/-- What the decoders return on the two streams above: `emptyZlibStream` is a valid zlib
stream of no bytes, and read as raw deflate it is rejected (its first byte opens a stored
block whose length fields do not match); `gzipStreamA` is a valid gzip stream of "a".
Every other entry is `none`; the theorems evaluate the table on these two streams only. -/
def observedCodecs : Codecs :=
  { gzipDecode := fun b => if b = gzipStreamA then some [97] else none,
    zlibDecode := fun b => if b = emptyZlibStream then some [] else none,
    flateDecode := fun _ => none }

/-! ## config/config.go -/

/-- `parseInt`; `Atoi` is `strconv.Atoi`, `none` for its error. -/
def parseInt (Atoi : String → Option Int) (value : String) : Int :=
  match Atoi value with
  | none => 0
  | some i => i

/-! ## histories, continued -/

/-- The proposal a call is made on. -/
def opProposal : Op → Int
  | .submitVote _ proposalID _ => proposalID
  | .finalize proposalID _ => proposalID
  | .adminApprove proposalID _ => proposalID

/-- A series of `SubmitVote` calls, each given as (voter, proposal, vote type). -/
def voteOps (votes : List (Int × Int × String)) : List Op :=
  votes.map (fun x => Op.submitVote x.1 x.2.1 x.2.2)

/-- How the row of a proposal may differ from its earlier self, as far as the status goes:
the same id, and the same status or a change from PENDING to APPROVED. -/
def StatusStep (before after : Proposal) : Prop :=
  after.ID = before.ID ∧
  (after.Status = before.Status ∨
    (before.Status = ProposalStatusPending ∧ after.Status = ProposalStatusApproved))

/-- Every pending proposal has both counters below the threshold. -/
def PendingBelow (threshold : Int) (db : DB) : Prop :=
  ∀ p ∈ db.proposals, p.Status = ProposalStatusPending →
    p.AllowlistVotes < threshold ∧ p.BlocklistVotes < threshold

/-! ## sample data -/

/-- An admin-authored rule with the given id. -/
def sampleRule (id : Int) : Rule :=
  { ID := id, Identifier := "com.example.app", Policy := PolicyAllowlist, RuleType := "BINARY",
    CustomMessage := none, Comment := none, CreatedBy := none, ProposalID := none }

/-- Rules table with ids 1, 2, 3. -/
def threeRules : List Rule := [sampleRule 1, sampleRule 2, sampleRule 3]

/-- Rules table with ids 1 .. 100: exactly one full page. -/
def hundredRules : List Rule := (List.range 100).map (fun i => sampleRule ((i : Int) + 1))

/-- A proposal with the given id, status and counters, created by user 7. -/
def sampleProposal (id : Int) (status : String) (allowlistVotes blocklistVotes : Int) :
    Proposal :=
  { ID := id, Identifier := "abc123", RuleType := "BINARY", ProposedPolicy := PolicyAllowlist,
    CustomMessage := none, CreatedBy := 7, Status := status,
    AllowlistVotes := allowlistVotes, BlocklistVotes := blocklistVotes }

/-- Store without any row. -/
def emptyDB : DB :=
  { proposals := [], votes := [], rules := [], votesSeq := 0, rulesSeq := 0 }

/-- Store with the single pending proposal 1, no vote and no rule. -/
def pendingDB : DB :=
  { emptyDB with proposals := [sampleProposal 1 ProposalStatusPending 0 0] }

/-- Store with the single proposal 1, approved, and the rule made from it. -/
def approvedDB : DB :=
  { proposals := [sampleProposal 1 ProposalStatusApproved 0 0],
    votes := [],
    rules := [{ ID := 1, Identifier := "abc123", Policy := PolicyAllowlist, RuleType := "BINARY",
                CustomMessage := none, Comment := none, CreatedBy := some 7,
                ProposalID := some 1 }],
    votesSeq := 0, rulesSeq := 1 }

/-- A device row with id "dev1": serial "C02X", host "alice", OS 13.0, build "22A", agent
2024.1, mode MONITOR, enrolled at 10, last sync 50, last preflight 100. -/
def sampleMachine : Machine :=
  { ID := 1, MachineID := "dev1", SerialNumber := some "C02X", Hostname := some "alice",
    OSVersion := some "13.0", OSBuild := some "22A", SantaVersion := some "2024.1",
    ClientMode := some "MONITOR", EnrolledAt := 10, LastSync := some 50,
    LastPreflightSync := some 100 }

/-- Store whose only row is the device `sampleMachine`. -/
def deviceDB : DB :=
  { emptyDB with machines := [sampleMachine], machinesSeq := 1 }

/-- An uploaded event with the given hash. -/
def sampleEvent (hash : String) : SantaEvent :=
  { FileSHA256 := hash, FilePath := "/Applications/App.app", ExecutingUser := "alice",
    ExecutionTime := 1700000000, Decision := "ALLOW", CertificateSHA256 := "",
    CertificateCN := "", TeamID := "", SigningID := "", BundleID := "", BundleName := "",
    BundlePath := "", QuarantineDataURL := "" }

/-- An uploaded event with the given hash, of a blocked execution by another user. -/
def blockedEvent (hash : String) : SantaEvent :=
  { FileSHA256 := hash, FilePath := "/usr/bin/tool", ExecutingUser := "bob",
    ExecutionTime := 1700000050, Decision := "BLOCK", CertificateSHA256 := "",
    CertificateCN := "", TeamID := "TEAM9", SigningID := "", BundleID := "", BundleName := "",
    BundlePath := "", QuarantineDataURL := "" }

/-- Decoders that reject every input. -/
def rejectingCodecs : Codecs :=
  { gzipDecode := fun _ => none, zlibDecode := fun _ => none, flateDecode := fun _ => none }

/-- Store with 100 admin-authored rules (ids 1 .. 100) and the pending proposal 1. -/
def fullPageDB : DB :=
  { pendingDB with rules := hundredRules, rulesSeq := 100 }

/-! # Theorems -/

/-! ## Rule download -/

theorem ruleDownloadStartID_eq (cursor : String) : ruleDownloadStartID cursor = 0 := by
  unfold ruleDownloadStartID
  split <;> rfl

theorem RuleDownload_cursor_irrelevant (rules : List Rule) (cursor : String) :
    RuleDownload rules cursor = RuleDownload rules "" := by
  simp [RuleDownload, ruleDownloadStartID_eq]

theorem scanLoop_eq (rows : List Rule) (acc : List SantaRule × Int) :
    rows.foldl scanStep acc =
      (acc.1 ++ rows.map (fun row => (scanRule row).2),
       (rows.getLast?.map (fun r => r.ID)).getD acc.2) := by
  induction rows generalizing acc with
  | nil => simp
  | cons row rest ih =>
    rw [List.foldl_cons, ih]
    cases rest with
    | nil => simp [scanStep, scanRule]
    | cons r2 rest2 =>
      have hx := List.getLast?_eq_getLast (r2 :: rest2) (by simp)
      simp only [List.getLast?_cons_cons, hx]
      simp [scanStep, scanRule]

theorem RuleDownload_eq (rules : List Rule) (cursor : String) :
    RuleDownload rules cursor =
      { rules := (ruleDownloadRows rules cursor).map (fun row => (scanRule row).2),
        cursor := if (ruleDownloadRows rules cursor).length = 100 then
                    some (((ruleDownloadRows rules cursor).getLast?.map (fun r => r.ID)).getD 0)
                  else none } := by
  simp [RuleDownload, ruleDownloadRows, scanLoop_eq]

theorem selectRulesAfter_sorted (rules : List Rule) (startID : Int) (n : Nat) :
    (selectRulesAfter rules startID n).Pairwise (fun a b => a.ID ≤ b.ID) := by
  unfold selectRulesAfter
  haveI : IsTotal Rule (fun a b => a.ID ≤ b.ID) := ⟨fun a b => le_total a.ID b.ID⟩
  haveI : IsTrans Rule (fun a b => a.ID ≤ b.ID) := ⟨fun a b c h1 h2 => le_trans h1 h2⟩
  exact (List.sorted_insertionSort (fun a b : Rule => a.ID ≤ b.ID) _).sublist
    (List.take_sublist _ _)

theorem le_last_of_sorted (rows : List Rule) (h : rows.Pairwise (fun a b => a.ID ≤ b.ID))
    (last : Rule) (hl : rows.getLast? = some last) : ∀ r ∈ rows, r.ID ≤ last.ID := by
  intro r hr
  obtain ⟨front, rfl⟩ : ∃ front, rows = front ++ [last] := by
    rcases List.eq_nil_or_concat rows with h0 | ⟨i, l, h1⟩
    · subst h0; simp at hl
    · subst h1; simp at hl; subst hl; exact ⟨i, by simp⟩
  rw [List.pairwise_append] at h
  rcases List.mem_append.mp hr with h1 | h1
  · exact h.2.2 r h1 last (by simp)
  · simp at h1; subst h1; exact le_refl _

/-- C1 (the code at the failing input).  With rules 1, 2, 3 in the table and the cursor "2"
in the request, `RuleDownload` queries from id 0: the rows it returns are those of ids
1, 2, 3, so rules with id at or below the cursor are sent again. -/
theorem RuleDownload_resends_rules_at_or_below_cursor :
    (ruleDownloadRows threeRules "2").map (fun r => r.ID) = [1, 2, 3] ∧
    (RuleDownload threeRules "2").rules = threeRules.map (fun row => (scanRule row).2) ∧
    (RuleDownload threeRules "2").cursor = none := by
  decide

set_option maxRecDepth 100000 in
/-- C2 (the code at the failing input).  With exactly 100 rules in the table the first
response carries the cursor 100, the call that echoes it back gets the same page and the
same cursor again, and the client never sees a response without a cursor, whatever the
number of requests it is allowed. -/
theorem downloadAllRules_hundred_never_ends :
    (RuleDownload hundredRules "").cursor = some 100 ∧
    RuleDownload hundredRules (toString (100 : Int)) = RuleDownload hundredRules "" ∧
    ∀ fuel cursor, downloadAllRules hundredRules fuel cursor = none := by
  have h100 : (RuleDownload hundredRules "").cursor = some 100 := by decide
  refine ⟨h100, RuleDownload_cursor_irrelevant _ _, ?_⟩
  intro fuel
  induction fuel with
  | zero => intro cursor; rfl
  | succ n ih =>
    intro cursor
    simp only [downloadAllRules]
    rw [RuleDownload_cursor_irrelevant, h100]
    simp [ih]

/-- C3.  The response of `RuleDownload` holds the scanned rows of its query; it carries a
cursor exactly when it holds 100 rules; and a cursor that is present is the id of the last
row of the page, which no id in the page exceeds. -/
theorem RuleDownload_cursor_iff_full_page (rules : List Rule) (cursor : String) :
    (RuleDownload rules cursor).rules =
        (ruleDownloadRows rules cursor).map (fun row => (scanRule row).2) ∧
    ((RuleDownload rules cursor).cursor.isSome ↔
        (RuleDownload rules cursor).rules.length = 100) ∧
    (∀ c, (RuleDownload rules cursor).cursor = some c →
        (ruleDownloadRows rules cursor).getLast?.map (fun r => r.ID) = some c ∧
        ∀ r ∈ ruleDownloadRows rules cursor, r.ID ≤ c) := by
  rw [RuleDownload_eq]
  refine ⟨rfl, ?_, ?_⟩
  · by_cases h : (ruleDownloadRows rules cursor).length = 100 <;> simp [h]
  · intro c hc
    by_cases h : (ruleDownloadRows rules cursor).length = 100
    · simp only [h, if_true, Option.some.injEq] at hc
      cases hl : (ruleDownloadRows rules cursor).getLast? with
      | none =>
        rw [List.getLast?_eq_none_iff] at hl
        rw [hl] at h; simp at h
      | some last =>
        rw [hl] at hc
        simp at hc
        subst hc
        exact ⟨rfl, le_last_of_sorted _ (selectRulesAfter_sorted _ _ _) last hl⟩
    · simp [h] at hc

/-! ## Finalize -/

theorem selectProposal_id (db : DB) (pid : Int) (p : Proposal)
    (h : selectProposal db pid = some p) : p.ID = pid := by
  have := List.find?_some h
  simpa using this

theorem selectProposal_mem (db : DB) (pid : Int) (p : Proposal)
    (h : selectProposal db pid = some p) : p ∈ db.proposals :=
  List.mem_of_find?_eq_some h

theorem finalizeFetch_pending (db : DB) (pid : Int) (policy : String) (p : Proposal)
    (hpol : policy = PolicyAllowlist ∨ policy = PolicyBlocklist)
    (hsel : selectProposal db pid = some p) (hst : p.Status = ProposalStatusPending) :
    finalizeFetch db pid policy = .ok p := by
  unfold finalizeFetch
  rcases hpol with h | h <;> subst h <;> simp [hsel, hst]

theorem finalizeFetch_not_pending (db : DB) (pid : Int) (policy : String) (p : Proposal)
    (hpol : policy = PolicyAllowlist ∨ policy = PolicyBlocklist)
    (hsel : selectProposal db pid = some p) (hst : p.Status ≠ ProposalStatusPending) :
    finalizeFetch db pid policy = .error (.alreadyFinalized p.Status) := by
  unfold finalizeFetch
  rcases hpol with h | h <;> subst h <;> simp [hsel, hst]

/-- C4 (counterexample).  Proposal 1 of `approvedDB` is already approved; finalizing it
again returns the error "proposal already finalized with status: APPROVED" and the handler
answers 400. -/
theorem FinalizeProposal_finalized_returns_error :
    (FinalizeProposal approvedDB 1 PolicyAllowlist).2 = some (.alreadyFinalized "APPROVED") ∧
    (AdminApproveProposal approvedDB 1 PolicyAllowlist).2 = some (.alreadyFinalized "APPROVED") ∧
    (ApproveProposal approvedDB 1 PolicyAllowlist).2 = 400 := by
  decide

/-- C4 (amended).  For a proposal that is not pending and a valid policy,
`FinalizeProposal` and `AdminApproveProposal` leave the store as it is and return the error
"proposal already finalized with status: ..."; the handler `ApproveProposal` answers 400. -/
theorem FinalizeProposal_finalized_unchanged (db : DB) (pid : Int) (policy : String)
    (p : Proposal) (hpol : policy = PolicyAllowlist ∨ policy = PolicyBlocklist)
    (hsel : selectProposal db pid = some p) (hst : p.Status ≠ ProposalStatusPending) :
    FinalizeProposal db pid policy = (db, some (.alreadyFinalized p.Status)) ∧
    AdminApproveProposal db pid policy = (db, some (.alreadyFinalized p.Status)) ∧
    ApproveProposal db pid policy = (db, 400) := by
  have h : FinalizeProposal db pid policy = (db, some (.alreadyFinalized p.Status)) := by
    simp [FinalizeProposal, finalizeFetch_not_pending db pid policy p hpol hsel hst]
  refine ⟨h, ?_, ?_⟩
  · simpa [AdminApproveProposal] using h
  · simp [ApproveProposal, AdminApproveProposal, h]

theorem FinalizeProposal_finalized_unchanged_witness :
    FinalizeProposal approvedDB 1 PolicyBlocklist = (approvedDB, some (.alreadyFinalized "APPROVED")) ∧
    AdminApproveProposal approvedDB 1 PolicyBlocklist =
      (approvedDB, some (.alreadyFinalized "APPROVED")) ∧
    ApproveProposal approvedDB 1 PolicyBlocklist = (approvedDB, 400) :=
  FinalizeProposal_finalized_unchanged approvedDB 1 PolicyBlocklist
    (sampleProposal 1 ProposalStatusApproved 0 0) (Or.inr rfl) (by decide) (by decide)

theorem FinalizeProposal_of_pending (db : DB) (pid : Int) (policy : String) (p : Proposal)
    (hpol : policy = PolicyAllowlist ∨ policy = PolicyBlocklist)
    (hsel : selectProposal db pid = some p) (hst : p.Status = ProposalStatusPending) :
    FinalizeProposal db pid policy = (finalizeTx db p pid policy, none) := by
  simp [FinalizeProposal, finalizeFetch_pending db pid policy p hpol hsel hst]

theorem selectProposal_updateStatus (db : DB) (status : String) (pid : Int) (p : Proposal)
    (hsel : selectProposal db pid = some p) :
    selectProposal (updateStatus db status pid) pid = some { p with Status := status } := by
  unfold selectProposal updateStatus at *
  simp only [List.find?_map]
  have hfun : ((fun q : Proposal => q.ID == pid) ∘
      fun q : Proposal => if (q.ID == pid) = true then { q with Status := status } else q) =
      fun q : Proposal => q.ID == pid := by
    funext q
    by_cases h : q.ID = pid <;> simp [h]
  rw [hfun, hsel]
  have := selectProposal_id db pid p hsel
  simp [this]

theorem foldl_max_ge (ids : List Int) (seq : Int) :
    seq ≤ ids.foldl max seq ∧ ∀ i ∈ ids, i ≤ ids.foldl max seq := by
  induction ids generalizing seq with
  | nil => simp
  | cons a rest ih =>
    simp only [List.foldl_cons, List.mem_cons]
    refine ⟨le_trans (le_max_left _ _) (ih (max seq a)).1, ?_⟩
    intro i hi
    rcases hi with h | h
    · subst h; exact le_trans (le_max_right _ _) (ih (max seq i)).1
    · exact (ih (max seq a)).2 i h

theorem nextID_fresh (ids : List Int) (seq : Int) :
    seq < nextID ids seq ∧ ∀ i ∈ ids, i < nextID ids seq := by
  unfold nextID
  have h := foldl_max_ge ids seq
  refine ⟨by omega, fun i hi => ?_⟩
  have := h.2 i hi
  omega

theorem FinalizeProposal_pending_fields (db : DB) (pid : Int) (policy : String)
    (p : Proposal) (hpol : policy = PolicyAllowlist ∨ policy = PolicyBlocklist)
    (hsel : selectProposal db pid = some p) (hst : p.Status = ProposalStatusPending) :
    selectProposal (FinalizeProposal db pid policy).1 pid =
      some { p with Status := ProposalStatusApproved } ∧
    ∃ id : Int, (∀ r ∈ db.rules, r.ID < id) ∧
      (FinalizeProposal db pid policy).1.rules = db.rules ++
        [{ ID := id, Identifier := p.Identifier, Policy := policy, RuleType := p.RuleType,
           CustomMessage := p.CustomMessage, Comment := none, CreatedBy := some p.CreatedBy,
           ProposalID := some pid }] := by
  rw [FinalizeProposal_of_pending db pid policy p hpol hsel hst]
  refine ⟨?_, nextID (db.rules.map (fun r => r.ID)) db.rulesSeq, ?_, ?_⟩
  · have := selectProposal_updateStatus db ProposalStatusApproved pid p hsel
    simpa [finalizeTx, insertRule, selectProposal] using this
  · intro r hr
    exact (nextID_fresh _ _).2 r.ID (List.mem_map_of_mem _ hr)
  · simp [finalizeTx, insertRule, updateStatus]

/-- C5.  For a pending proposal `p` and a policy among ALLOWLIST and BLOCKLIST,
`FinalizeProposal` returns no error; afterwards `p` is read back with status APPROVED and
otherwise as before, the rules table is the old one followed by one new rule, with a fresh
id, the identifier, rule type, message and creator of `p`, the given policy and `p` as its
proposal, and the votes are untouched. -/
theorem FinalizeProposal_pending_creates_rule (db : DB) (pid : Int) (policy : String)
    (p : Proposal) (hpol : policy = PolicyAllowlist ∨ policy = PolicyBlocklist)
    (hsel : selectProposal db pid = some p) (hst : p.Status = ProposalStatusPending) :
    (FinalizeProposal db pid policy).2 = none ∧
    selectProposal (FinalizeProposal db pid policy).1 pid =
      some { p with Status := ProposalStatusApproved } ∧
    (∃ id : Int, (∀ r ∈ db.rules, r.ID < id) ∧
      (FinalizeProposal db pid policy).1.rules = db.rules ++
        [{ ID := id, Identifier := p.Identifier, Policy := policy, RuleType := p.RuleType,
           CustomMessage := p.CustomMessage, Comment := none, CreatedBy := some p.CreatedBy,
           ProposalID := some p.ID }]) ∧
    (FinalizeProposal db pid policy).1.votes = db.votes ∧
    (∀ q ∈ (FinalizeProposal db pid policy).1.proposals, q.ID ≠ pid → q ∈ db.proposals) := by
  rw [FinalizeProposal_of_pending db pid policy p hpol hsel hst]
  have hid := selectProposal_id db pid p hsel
  refine ⟨rfl, ?_, ?_, ?_, ?_⟩
  · have := selectProposal_updateStatus db ProposalStatusApproved pid p hsel
    simpa [finalizeTx, insertRule, selectProposal] using this
  · refine ⟨nextID (db.rules.map (fun r => r.ID)) db.rulesSeq, ?_, ?_⟩
    · intro r hr
      exact (nextID_fresh _ _).2 r.ID (List.mem_map_of_mem _ hr)
    · simp [finalizeTx, insertRule, updateStatus, hid]
  · simp [finalizeTx, insertRule, updateStatus]
  · intro q hq hne
    simp only [finalizeTx, insertRule, updateStatus, List.mem_map] at hq
    obtain ⟨q0, hq0, rfl⟩ := hq
    by_cases h : (q0.ID == pid) = true
    · simp [h] at hne
      simp at h
      exact absurd h hne
    · simpa [h] using hq0

theorem FinalizeProposal_pending_creates_rule_witness :
    (FinalizeProposal pendingDB 1 PolicyBlocklist).2 = none ∧
    (FinalizeProposal pendingDB 1 PolicyBlocklist).1.rules =
      [{ ID := 1, Identifier := "abc123", Policy := "BLOCKLIST", RuleType := "BINARY",
         CustomMessage := none, Comment := none, CreatedBy := some 7, ProposalID := some 1 }] ∧
    selectProposal (FinalizeProposal pendingDB 1 PolicyBlocklist).1 1 =
      some (sampleProposal 1 ProposalStatusApproved 0 0) :=
  have h := FinalizeProposal_pending_creates_rule pendingDB 1 PolicyBlocklist
    (sampleProposal 1 ProposalStatusPending 0 0) (Or.inr rfl) (by decide) (by decide)
  ⟨h.1, by decide, h.2.1⟩

/-! ## The invariant of sequential histories -/

theorem linkedRules_insertRule (db : DB) (identifier policy ruleType : String)
    (msg : Option String) (createdBy pid qid : Int) :
    linkedRules (insertRule db identifier policy ruleType msg createdBy pid) qid =
      linkedRules db qid + (if pid = qid then 1 else 0) := by
  unfold linkedRules insertRule
  by_cases h : pid = qid <;> simp [List.filter_append, h]

theorem Consistent_of_same_status (db db1 : DB) (hr : db1.rules = db.rules)
    (hp : ∀ q ∈ db1.proposals, ∃ p ∈ db.proposals, q.ID = p.ID ∧ q.Status = p.Status)
    (h : Consistent db) : Consistent db1 := by
  intro q hq
  obtain ⟨p, hpm, hid, hst⟩ := hp q hq
  have := h p hpm
  simpa [linkedRules, hr, hid, hst] using this

theorem Consistent_finalizeTx (db : DB) (pid : Int) (policy : String) (p : Proposal)
    (hsel : selectProposal db pid = some p) (hst : p.Status = ProposalStatusPending)
    (h : Consistent db) : Consistent (finalizeTx db p pid policy) := by
  have hid := selectProposal_id db pid p hsel
  have hzero : linkedRules db pid = 0 := by
    rcases h p (selectProposal_mem db pid p hsel) with h1 | h1
    · rw [← hid]; exact h1.2
    · rw [hst] at h1; exact absurd h1.1 (by decide)
  intro q hq
  simp only [finalizeTx, insertRule, updateStatus, List.mem_map] at hq
  obtain ⟨q0, hq0, rfl⟩ := hq
  have hlink : ∀ qid, linkedRules (finalizeTx db p pid policy) qid =
      linkedRules db qid + (if pid = qid then 1 else 0) := by
    intro qid
    unfold finalizeTx
    rw [linkedRules_insertRule]
    rfl
  by_cases hq0id : q0.ID = pid
  · right
    simp only [hq0id, beq_self_eq_true, if_true]
    rw [hlink, hzero]
    simp
  · have hb : (q0.ID == pid) = false := by simpa using hq0id
    simp only [hb]
    rw [hlink]
    have hne : ¬ pid = q0.ID := fun e => hq0id e.symm
    simpa [hne] using h q0 hq0

theorem Consistent_FinalizeProposal (db : DB) (pid : Int) (policy : String)
    (h : Consistent db) : Consistent (FinalizeProposal db pid policy).1 := by
  unfold FinalizeProposal
  cases hf : finalizeFetch db pid policy with
  | error e => exact h
  | ok p =>
    have hp : selectProposal db pid = some p ∧ p.Status = ProposalStatusPending := by
      unfold finalizeFetch at hf
      split at hf
      · cases hf
      · split at hf
        · cases hf
        · rename_i q hq
          split at hf
          · cases hf
          · rename_i hs
            cases hf
            exact ⟨hq, by simpa using hs⟩
    exact Consistent_finalizeTx db pid policy p hp.1 hp.2 h

theorem Consistent_checkAndFinalizeProposal (threshold : Int) (db : DB) (pid : Int)
    (h : Consistent db) : Consistent (checkAndFinalizeProposal threshold db pid).1 := by
  unfold checkAndFinalizeProposal
  split
  · exact h
  · split
    · exact h
    · split
      · exact Consistent_FinalizeProposal db pid _ h
      · split
        · exact Consistent_FinalizeProposal db pid _ h
        · exact h

theorem Consistent_recalculate_upsert (db : DB) (u pid : Int) (v : String)
    (h : Consistent db) :
    Consistent (recalculateVotes (upsertVote db u pid v) pid).1 := by
  apply Consistent_of_same_status db _ _ _ h
  · unfold recalculateVotes updateVoteCounts upsertVote
    split <;> rfl
  · intro q hq
    have hprop : (upsertVote db u pid v).proposals = db.proposals := by
      unfold upsertVote; split <;> rfl
    simp only [recalculateVotes, updateVoteCounts, List.mem_map, hprop] at hq
    obtain ⟨q0, hq0, rfl⟩ := hq
    refine ⟨q0, hq0, ?_⟩
    split <;> exact ⟨rfl, rfl⟩

theorem Consistent_SubmitVote (threshold : Int) (db : DB) (u pid : Int) (v : String)
    (h : Consistent db) : Consistent (SubmitVote threshold db u pid v).1 := by
  unfold SubmitVote
  split
  · exact h
  · split
    · exact h
    · split
      · exact h
      · have h2 := Consistent_recalculate_upsert db u pid v h
        simp only [recalculateVotes] at h2 ⊢
        exact Consistent_checkAndFinalizeProposal threshold _ pid h2

theorem Consistent_applyOp (threshold : Int) (db : DB) (op : Op) (h : Consistent db) :
    Consistent (applyOp threshold db op) := by
  cases op with
  | submitVote u pid v => exact Consistent_SubmitVote threshold db u pid v h
  | finalize pid policy => exact Consistent_FinalizeProposal db pid policy h
  | adminApprove pid policy => exact Consistent_FinalizeProposal db pid policy h

theorem Consistent_runOps (threshold : Int) (ops : List Op) (db : DB) (h : Consistent db) :
    Consistent (runOps threshold db ops) := by
  induction ops generalizing db with
  | nil => exact h
  | cons op rest ih => exact ih _ (Consistent_applyOp threshold db op h)

/-- C6.  Start from a store in which every proposal is pending and has no rule linked to
it, and make any series of `SubmitVote`, `FinalizeProposal` and `AdminApproveProposal`
calls, one after the other, under any threshold.  In the store reached every proposal is
pending or approved; an approved one has exactly one rule linked to it and a pending one
has none. -/
theorem runOps_approved_iff_one_rule (threshold : Int) (db : DB) (ops : List Op)
    (h0 : ∀ p ∈ db.proposals, p.Status = ProposalStatusPending ∧ linkedRules db p.ID = 0) :
    ∀ p ∈ (runOps threshold db ops).proposals,
      (p.Status = ProposalStatusPending ∨ p.Status = ProposalStatusApproved) ∧
      (p.Status = ProposalStatusApproved → linkedRules (runOps threshold db ops) p.ID = 1) ∧
      (p.Status = ProposalStatusPending → linkedRules (runOps threshold db ops) p.ID = 0) := by
  have hc : Consistent (runOps threshold db ops) :=
    Consistent_runOps threshold ops db (fun p hp => Or.inl (h0 p hp))
  intro p hp
  rcases hc p hp with h | h
  · refine ⟨Or.inl h.1, ?_, fun _ => h.2⟩
    intro ha
    rw [h.1] at ha
    exact absurd ha (by decide)
  · refine ⟨Or.inr h.1, fun _ => h.2, ?_⟩
    intro ha
    rw [h.1] at ha
    exact absurd ha (by decide)

/-- A history on `pendingDB`: three users vote ALLOWLIST (threshold 3), then an admin
approves with BLOCKLIST, then the proposal is finalized once more. -/
theorem runOps_approved_iff_one_rule_witness :
    (∀ p ∈ pendingDB.proposals,
        p.Status = ProposalStatusPending ∧ linkedRules pendingDB p.ID = 0) ∧
    ∀ p ∈ (runOps 3 pendingDB
        [.submitVote 1 1 "ALLOWLIST", .submitVote 2 1 "ALLOWLIST", .submitVote 3 1 "ALLOWLIST",
         .adminApprove 1 "BLOCKLIST", .finalize 1 "ALLOWLIST"]).proposals,
      (p.Status = ProposalStatusPending ∨ p.Status = ProposalStatusApproved) ∧
      (p.Status = ProposalStatusApproved → linkedRules (runOps 3 pendingDB
        [.submitVote 1 1 "ALLOWLIST", .submitVote 2 1 "ALLOWLIST", .submitVote 3 1 "ALLOWLIST",
         .adminApprove 1 "BLOCKLIST", .finalize 1 "ALLOWLIST"]) p.ID = 1) ∧
      (p.Status = ProposalStatusPending → linkedRules (runOps 3 pendingDB
        [.submitVote 1 1 "ALLOWLIST", .submitVote 2 1 "ALLOWLIST", .submitVote 3 1 "ALLOWLIST",
         .adminApprove 1 "BLOCKLIST", .finalize 1 "ALLOWLIST"]) p.ID = 0) :=
  ⟨by decide, runOps_approved_iff_one_rule 3 pendingDB _ (by decide)⟩

/-! ## Interleaved finalize calls -/

theorem stepCall_twice_eq_FinalizeProposal (db : DB) (pid : Int) (policy : String) :
    (runSchedule db (.start pid policy) (.done none) [false, false]).1 =
        (FinalizeProposal db pid policy).1 ∧
    (runSchedule db (.start pid policy) (.done none) [false, false]).2.1 =
        .done (FinalizeProposal db pid policy).2 := by
  simp only [runSchedule, FinalizeProposal]
  cases h : finalizeFetch db pid policy <;> simp [stepCall, h]

/-- C7 (the code at the failing input).  Two `FinalizeProposal` calls for the pending
proposal 1 of `pendingDB`, scheduled fetch, fetch, transaction, transaction: both find the
proposal pending, both return without error, and the store ends with two rules linked to
the proposal, with the policies of the two calls. -/
theorem runSchedule_two_finalize_calls_two_rules :
    (runSchedule pendingDB (.start 1 PolicyAllowlist) (.start 1 PolicyBlocklist)
        [false, true, false, true]).2 = (.done none, .done none) ∧
    linkedRules (runSchedule pendingDB (.start 1 PolicyAllowlist) (.start 1 PolicyBlocklist)
        [false, true, false, true]).1 1 = 2 ∧
    (runSchedule pendingDB (.start 1 PolicyAllowlist) (.start 1 PolicyBlocklist)
        [false, true, false, true]).1.rules.map (fun r => (r.ID, r.Policy, r.ProposalID)) =
      [(1, "ALLOWLIST", some 1), (2, "BLOCKLIST", some 1)] := by
  decide

/-! ## SubmitVote -/

theorem SubmitVote_of_pending (threshold : Int) (db : DB) (u pid : Int) (v : String)
    (p : Proposal) (hv : v = VoteTypeAllowlist ∨ v = VoteTypeBlocklist)
    (hsel : selectProposal db pid = some p) (hst : p.Status = ProposalStatusPending) :
    SubmitVote threshold db u pid v =
      ((checkAndFinalizeProposal threshold
          (updateVoteCounts (upsertVote db u pid v)
            (countVotes (upsertVote db u pid v) pid VoteTypeAllowlist)
            (countVotes (upsertVote db u pid v) pid VoteTypeBlocklist) pid) pid).1, none) := by
  unfold SubmitVote
  rcases hv with h | h <;> subst h <;> simp [hsel, hst, recalculateVotes]

/-- C9 (counterexample).  With an unrecognized vote type `SubmitVote` returns the
invalid-vote error both for a proposal id that does not exist (empty store) and for a
proposal that is not pending (`approvedDB`): the vote type is checked first. -/
theorem SubmitVote_checks_vote_type_first :
    SubmitVote 3 emptyDB 5 1 "MAYBE" = (emptyDB, some (.invalidVoteType "MAYBE")) ∧
    SubmitVote 3 approvedDB 5 1 "MAYBE" = (approvedDB, some (.invalidVoteType "MAYBE")) := by
  decide

/-- C9 (amended).  `SubmitVote` checks vote type, then existence, then status: an
unrecognized vote type gives the invalid-vote error whatever the proposal; with a
recognized vote type a missing proposal gives the not-found error; with a recognized vote
type an existing proposal that is not pending gives the invalid-state error.  The store is
unchanged in all three cases. -/
theorem SubmitVote_precondition_order (threshold : Int) (db : DB) (u pid : Int) (v : String) :
    (¬ (v = VoteTypeAllowlist ∨ v = VoteTypeBlocklist) →
        SubmitVote threshold db u pid v = (db, some (.invalidVoteType v))) ∧
    ((v = VoteTypeAllowlist ∨ v = VoteTypeBlocklist) → selectProposal db pid = none →
        SubmitVote threshold db u pid v = (db, some .proposalNotFound)) ∧
    ((v = VoteTypeAllowlist ∨ v = VoteTypeBlocklist) →
        ∀ p, selectProposal db pid = some p → p.Status ≠ ProposalStatusPending →
          SubmitVote threshold db u pid v = (db, some (.cannotVote p.Status))) := by
  refine ⟨?_, ?_, ?_⟩
  · intro hv
    have h1 : v ≠ VoteTypeAllowlist := fun h => hv (Or.inl h)
    have h2 : v ≠ VoteTypeBlocklist := fun h => hv (Or.inr h)
    simp [SubmitVote, h1, h2]
  · intro hv hsel
    unfold SubmitVote
    rcases hv with h | h <;> subst h <;> simp [hsel]
  · intro hv p hsel hst
    unfold SubmitVote
    rcases hv with h | h <;> subst h <;> simp [hsel, hst]

theorem SubmitVote_precondition_order_witness :
    SubmitVote 3 pendingDB 5 1 "MAYBE" = (pendingDB, some (.invalidVoteType "MAYBE")) ∧
    SubmitVote 3 emptyDB 5 1 "ALLOWLIST" = (emptyDB, some .proposalNotFound) ∧
    SubmitVote 3 approvedDB 5 1 "BLOCKLIST" = (approvedDB, some (.cannotVote "APPROVED")) :=
  ⟨(SubmitVote_precondition_order 3 pendingDB 5 1 "MAYBE").1 (by decide),
   (SubmitVote_precondition_order 3 emptyDB 5 1 "ALLOWLIST").2.1 (Or.inl rfl) (by decide),
   (SubmitVote_precondition_order 3 approvedDB 5 1 "BLOCKLIST").2.2 (Or.inr rfl)
     (sampleProposal 1 ProposalStatusApproved 0 0) (by decide) (by decide)⟩

theorem FinalizeProposal_votes (db : DB) (pid : Int) (policy : String) :
    (FinalizeProposal db pid policy).1.votes = db.votes := by
  unfold FinalizeProposal
  split <;> rfl

theorem checkAndFinalizeProposal_votes (threshold : Int) (db : DB) (pid : Int) :
    (checkAndFinalizeProposal threshold db pid).1.votes = db.votes := by
  unfold checkAndFinalizeProposal
  split
  · rfl
  · split
    · rfl
    · split
      · exact FinalizeProposal_votes _ _ _
      · split
        · exact FinalizeProposal_votes _ _ _
        · rfl

theorem upsertVote_proposals (db : DB) (u pid : Int) (v : String) :
    (upsertVote db u pid v).proposals = db.proposals := by
  unfold upsertVote
  split <;> rfl

theorem upsertVote_rules (db : DB) (u pid : Int) (v : String) :
    (upsertVote db u pid v).rules = db.rules := by
  unfold upsertVote
  split <;> rfl

theorem selectProposal_updateVoteCounts (db : DB) (a b pid : Int) (p : Proposal)
    (hsel : selectProposal db pid = some p) :
    selectProposal (updateVoteCounts db a b pid) pid =
      some { p with AllowlistVotes := a, BlocklistVotes := b } := by
  unfold selectProposal updateVoteCounts at *
  simp only [List.find?_map]
  have hfun : ((fun q : Proposal => q.ID == pid) ∘
      fun q : Proposal => if (q.ID == pid) = true then
        { q with AllowlistVotes := a, BlocklistVotes := b } else q) =
      fun q : Proposal => q.ID == pid := by
    funext q
    by_cases h : q.ID = pid <;> simp [h]
  rw [hfun, hsel]
  have := selectProposal_id db pid p hsel
  simp [this]

theorem SubmitVote_votes (threshold : Int) (db : DB) (u pid : Int) (v : String)
    (p : Proposal) (hv : v = VoteTypeAllowlist ∨ v = VoteTypeBlocklist)
    (hsel : selectProposal db pid = some p) (hst : p.Status = ProposalStatusPending) :
    (SubmitVote threshold db u pid v).1.votes = (upsertVote db u pid v).votes := by
  rw [SubmitVote_of_pending threshold db u pid v p hv hsel hst]
  simp only [checkAndFinalizeProposal_votes]
  rfl

/-- C8.  A `SubmitVote` with a recognized vote type on a pending proposal `p` returns no
error and leaves the ledger as the upsert made it.  The proposal is then read back with
both counters equal to the counts of its votes in the ledger, and: if the allow counter is
at least the threshold, `p` is approved and the rules table is the old one followed by one
rule made from `p` with policy ALLOWLIST; otherwise, if the block counter is at least the
threshold, the same with policy BLOCKLIST; otherwise `p` is still pending and the rules
table is unchanged. -/
theorem SubmitVote_threshold_outcome (threshold : Int) (db : DB) (u pid : Int) (v : String)
    (p : Proposal) (hv : v = VoteTypeAllowlist ∨ v = VoteTypeBlocklist)
    (hsel : selectProposal db pid = some p) (hst : p.Status = ProposalStatusPending) :
    (SubmitVote threshold db u pid v).2 = none ∧
    (SubmitVote threshold db u pid v).1.votes = (upsertVote db u pid v).votes ∧
    ∃ q, selectProposal (SubmitVote threshold db u pid v).1 pid = some q ∧
      q.AllowlistVotes = countVotes (SubmitVote threshold db u pid v).1 pid VoteTypeAllowlist ∧
      q.BlocklistVotes = countVotes (SubmitVote threshold db u pid v).1 pid VoteTypeBlocklist ∧
      (threshold ≤ q.AllowlistVotes →
        q.Status = ProposalStatusApproved ∧
        ∃ id : Int, (∀ r ∈ db.rules, r.ID < id) ∧
          (SubmitVote threshold db u pid v).1.rules = db.rules ++
            [{ ID := id, Identifier := p.Identifier, Policy := PolicyAllowlist,
               RuleType := p.RuleType, CustomMessage := p.CustomMessage, Comment := none,
               CreatedBy := some p.CreatedBy, ProposalID := some pid }]) ∧
      (q.AllowlistVotes < threshold → threshold ≤ q.BlocklistVotes →
        q.Status = ProposalStatusApproved ∧
        ∃ id : Int, (∀ r ∈ db.rules, r.ID < id) ∧
          (SubmitVote threshold db u pid v).1.rules = db.rules ++
            [{ ID := id, Identifier := p.Identifier, Policy := PolicyBlocklist,
               RuleType := p.RuleType, CustomMessage := p.CustomMessage, Comment := none,
               CreatedBy := some p.CreatedBy, ProposalID := some pid }]) ∧
      (q.AllowlistVotes < threshold → q.BlocklistVotes < threshold →
        q.Status = ProposalStatusPending ∧
        (SubmitVote threshold db u pid v).1.rules = db.rules) := by
  have hvotes := SubmitVote_votes threshold db u pid v p hv hsel hst
  have hcount : ∀ t, countVotes (SubmitVote threshold db u pid v).1 pid t =
      countVotes (upsertVote db u pid v) pid t := by
    intro t; simp [countVotes, hvotes]
  refine ⟨by rw [SubmitVote_of_pending threshold db u pid v p hv hsel hst], hvotes, ?_⟩
  simp only [hcount]
  rw [SubmitVote_of_pending threshold db u pid v p hv hsel hst]
  generalize ha : countVotes (upsertVote db u pid v) pid VoteTypeAllowlist = a
  generalize hb : countVotes (upsertVote db u pid v) pid VoteTypeBlocklist = b
  have hsel1 : selectProposal (upsertVote db u pid v) pid = some p := by
    simpa [selectProposal, upsertVote_proposals] using hsel
  have hsel2 := selectProposal_updateVoteCounts (upsertVote db u pid v) a b pid p hsel1
  have hrules2 : (updateVoteCounts (upsertVote db u pid v) a b pid).rules = db.rules := by
    simp [updateVoteCounts, upsertVote_rules]
  generalize hdb2 : updateVoteCounts (upsertVote db u pid v) a b pid = db2 at hsel2 hrules2 ⊢
  have hfin : ∀ policy, policy = PolicyAllowlist ∨ policy = PolicyBlocklist →
      selectProposal (FinalizeProposal db2 pid policy).1 pid =
        some { p with AllowlistVotes := a, BlocklistVotes := b,
                      Status := ProposalStatusApproved } ∧
      ∃ id : Int, (∀ r ∈ db.rules, r.ID < id) ∧
        (FinalizeProposal db2 pid policy).1.rules = db.rules ++
          [{ ID := id, Identifier := p.Identifier, Policy := policy,
             RuleType := p.RuleType, CustomMessage := p.CustomMessage, Comment := none,
             CreatedBy := some p.CreatedBy, ProposalID := some pid }] := by
    intro policy hpol
    have h5 := FinalizeProposal_pending_fields db2 pid policy _ hpol hsel2 hst
    rw [hrules2] at h5
    exact ⟨h5.1, h5.2⟩
  unfold checkAndFinalizeProposal
  simp only [hsel2, hst]
  by_cases h1 : threshold ≤ a
  · have hf := hfin PolicyAllowlist (Or.inl rfl)
    simp only [ge_iff_le, h1, if_true, bne_self_eq_false, Bool.false_eq_true, if_false]
    refine ⟨_, hf.1, rfl, rfl, fun _ => ⟨rfl, hf.2⟩, fun h => absurd h1 (not_le.mpr h),
      fun h => absurd h1 (not_le.mpr h)⟩
  · by_cases h2 : threshold ≤ b
    · have hf := hfin PolicyBlocklist (Or.inr rfl)
      simp only [ge_iff_le, h1, h2, if_true, if_false, bne_self_eq_false, Bool.false_eq_true]
      refine ⟨_, hf.1, rfl, rfl, fun h => absurd h h1, fun _ _ => ⟨rfl, hf.2⟩,
        fun _ h => absurd h2 (not_le.mpr h)⟩
    · simp only [ge_iff_le, h1, h2, if_false, bne_self_eq_false, Bool.false_eq_true]
      refine ⟨_, hsel2, rfl, rfl, fun h => absurd h h1, fun _ h => absurd h h2,
        fun _ _ => ⟨hst, hrules2⟩⟩

theorem SubmitVote_threshold_outcome_witness :
    (SubmitVote 1 pendingDB 5 1 "ALLOWLIST").2 = none ∧
    (SubmitVote 1 pendingDB 5 1 "ALLOWLIST").1.votes =
      (upsertVote pendingDB 5 1 "ALLOWLIST").votes ∧
    (SubmitVote 1 pendingDB 5 1 "ALLOWLIST").1.rules =
      [{ ID := 1, Identifier := "abc123", Policy := "ALLOWLIST", RuleType := "BINARY",
         CustomMessage := none, Comment := none, CreatedBy := some 7, ProposalID := some 1 }] ∧
    (SubmitVote 2 pendingDB 5 1 "ALLOWLIST").1.rules = [] :=
  have h := SubmitVote_threshold_outcome 1 pendingDB 5 1 "ALLOWLIST"
    (sampleProposal 1 ProposalStatusPending 0 0) (Or.inl rfl) (by decide) (by decide)
  ⟨h.1, h.2.1, by decide, by decide⟩

/-! ## The vote ledger -/

theorem filter_key_map_retype (votes : List Vote) (u pid : Int) (t : String) :
    (votes.map (fun v => if sameVoteKey u pid v then { v with VoteType := t } else v)).filter
        (sameVoteKey u pid) =
      (votes.filter (sameVoteKey u pid)).map (fun v => { v with VoteType := t }) := by
  induction votes with
  | nil => rfl
  | cons x rest ih =>
    by_cases h : sameVoteKey u pid x = true
    · have h2 : sameVoteKey u pid { x with VoteType := t } = true := h
      simp [h, h2, ih]
    · simp [h, ih]

theorem filter_other_map_retype (votes : List Vote) (u pid : Int) (t : String) :
    (votes.map (fun v => if sameVoteKey u pid v then { v with VoteType := t } else v)).filter
        (fun v => !sameVoteKey u pid v) =
      votes.filter (fun v => !sameVoteKey u pid v) := by
  induction votes with
  | nil => rfl
  | cons x rest ih =>
    by_cases h : sameVoteKey u pid x = true
    · have h2 : sameVoteKey u pid { x with VoteType := t } = true := h
      simp [h, h2, ih]
    · simp [h, ih]

theorem upsertVote_other_rows (db : DB) (u pid : Int) (t : String) :
    (upsertVote db u pid t).votes.filter (fun v => !sameVoteKey u pid v) =
      db.votes.filter (fun v => !sameVoteKey u pid v) := by
  unfold upsertVote
  split
  · exact filter_other_map_retype db.votes u pid t
  · simp [List.filter_append, sameVoteKey]

theorem upsertVote_key_rows (db : DB) (u pid : Int) (t : String)
    (huniq : (db.votes.filter (sameVoteKey u pid)).length ≤ 1) :
    ∃ row, (upsertVote db u pid t).votes.filter (sameVoteKey u pid) = [row] ∧
      row.VoteType = t := by
  unfold upsertVote
  split
  · rename_i hany
    simp only [filter_key_map_retype]
    obtain ⟨x, hx, hkey⟩ := List.any_eq_true.mp hany
    have hmem : x ∈ db.votes.filter (sameVoteKey u pid) := List.mem_filter.mpr ⟨hx, hkey⟩
    match hl : db.votes.filter (sameVoteKey u pid), huniq, hmem with
    | [y], _, _ => exact ⟨{ y with VoteType := t }, by simp, rfl⟩
  · rename_i hany
    have hnone : db.votes.filter (sameVoteKey u pid) = [] := by
      rw [List.filter_eq_nil_iff]
      intro x hx hkey
      exact hany (List.any_eq_true.mpr ⟨x, hx, hkey⟩)
    refine ⟨{ ID := nextID (db.votes.map (fun v => v.ID)) db.votesSeq, UserID := u,
              ProposalID := pid, VoteType := t }, ?_, rfl⟩
    simp [List.filter_append, hnone, sameVoteKey]

/-- C10.  Let voter `u` submit two votes of recognized types `t1` and then `t2` on a
pending proposal, the first of which leaves the proposal pending, in a store that holds at
most one vote of `u` on it (the `UNIQUE(user_id, proposal_id)` constraint).  Both calls
return no error; afterwards the ledger holds exactly one row for the pair, of type `t2`,
and the rows of every other pair are what they were. -/
theorem SubmitVote_twice_one_row (threshold : Int) (db : DB) (u pid : Int) (t1 t2 : String)
    (p p1 : Proposal)
    (h1 : t1 = VoteTypeAllowlist ∨ t1 = VoteTypeBlocklist)
    (h2 : t2 = VoteTypeAllowlist ∨ t2 = VoteTypeBlocklist)
    (hsel : selectProposal db pid = some p) (hst : p.Status = ProposalStatusPending)
    (huniq : (db.votes.filter (sameVoteKey u pid)).length ≤ 1)
    (hsel1 : selectProposal (SubmitVote threshold db u pid t1).1 pid = some p1)
    (hst1 : p1.Status = ProposalStatusPending) :
    (SubmitVote threshold db u pid t1).2 = none ∧
    (SubmitVote threshold (SubmitVote threshold db u pid t1).1 u pid t2).2 = none ∧
    (∃ row,
      (SubmitVote threshold (SubmitVote threshold db u pid t1).1 u pid t2).1.votes.filter
        (sameVoteKey u pid) = [row] ∧ row.VoteType = t2) ∧
    (SubmitVote threshold (SubmitVote threshold db u pid t1).1 u pid t2).1.votes.filter
        (fun v => !sameVoteKey u pid v) =
      db.votes.filter (fun v => !sameVoteKey u pid v) := by
  have hv1 := SubmitVote_votes threshold db u pid t1 p h1 hsel hst
  have hv2 := SubmitVote_votes threshold _ u pid t2 p1 h2 hsel1 hst1
  have he1 : (SubmitVote threshold db u pid t1).2 = none := by
    rw [SubmitVote_of_pending threshold db u pid t1 p h1 hsel hst]
  have he2 : (SubmitVote threshold (SubmitVote threshold db u pid t1).1 u pid t2).2 = none := by
    rw [SubmitVote_of_pending threshold _ u pid t2 p1 h2 hsel1 hst1]
  obtain ⟨row1, hrow1, _⟩ := upsertVote_key_rows db u pid t1 huniq
  have huniq1 : ((SubmitVote threshold db u pid t1).1.votes.filter
      (sameVoteKey u pid)).length ≤ 1 := by
    rw [hv1, hrow1]; simp
  refine ⟨he1, he2, ?_, ?_⟩
  · rw [hv2]
    exact upsertVote_key_rows _ u pid t2 huniq1
  · rw [hv2, upsertVote_other_rows, hv1, upsertVote_other_rows]

theorem SubmitVote_twice_one_row_witness :
    (SubmitVote 3 pendingDB 5 1 "ALLOWLIST").2 = none ∧
    (SubmitVote 3 (SubmitVote 3 pendingDB 5 1 "ALLOWLIST").1 5 1 "BLOCKLIST").2 = none ∧
    (SubmitVote 3 (SubmitVote 3 pendingDB 5 1 "ALLOWLIST").1 5 1 "BLOCKLIST").1.votes =
      [{ ID := 1, UserID := 5, ProposalID := 1, VoteType := "BLOCKLIST" }] :=
  have h := SubmitVote_twice_one_row 3 pendingDB 5 1 "ALLOWLIST" "BLOCKLIST"
    (sampleProposal 1 ProposalStatusPending 0 0) (sampleProposal 1 ProposalStatusPending 1 0)
    (Or.inl rfl) (Or.inr rfl) (by decide) (by decide) (by decide) (by decide) (by decide)
  ⟨h.1, h.2.1, by decide⟩

/-! ## The counters and the ledger -/

theorem countVotes_congr (db db1 : DB) (h : db1.votes = db.votes) (pid : Int) (t : String) :
    countVotes db1 pid t = countVotes db pid t := by
  simp [countVotes, h]

theorem filter_proposal_map_retype (votes : List Vote) (u pid qid : Int) (v t : String)
    (hne : qid ≠ pid) :
    (votes.map (fun x => if sameVoteKey u pid x then { x with VoteType := v } else x)).filter
        (fun x => x.ProposalID == qid && x.VoteType == t) =
      votes.filter (fun x => x.ProposalID == qid && x.VoteType == t) := by
  induction votes with
  | nil => rfl
  | cons x rest ih =>
    rw [List.map_cons, List.filter_cons, List.filter_cons, ih]
    by_cases hk : sameVoteKey u pid x = true
    · have hx : x.ProposalID = pid := by
        simp [sameVoteKey] at hk
        exact hk.2
      have hq : ¬ pid = qid := fun e => hne e.symm
      simp [hk, hx, hq]
    · simp [hk]

theorem countVotes_upsertVote_other (db : DB) (u pid qid : Int) (v t : String)
    (hne : qid ≠ pid) :
    countVotes (upsertVote db u pid v) qid t = countVotes db qid t := by
  have hfilter : (upsertVote db u pid v).votes.filter
        (fun x => x.ProposalID == qid && x.VoteType == t) =
      db.votes.filter (fun x => x.ProposalID == qid && x.VoteType == t) := by
    unfold upsertVote
    split
    · exact filter_proposal_map_retype db.votes u pid qid v t hne
    · have hq : ¬ pid = qid := fun e => hne e.symm
      simp [List.filter_append, hq]
  simp only [countVotes, hfilter]

theorem CountersMatch_of_same_counters (db db1 : DB) (hv : db1.votes = db.votes)
    (hp : ∀ q ∈ db1.proposals, ∃ p ∈ db.proposals, q.ID = p.ID ∧
      q.AllowlistVotes = p.AllowlistVotes ∧ q.BlocklistVotes = p.BlocklistVotes)
    (h : CountersMatch db) : CountersMatch db1 := by
  intro q hq
  obtain ⟨p, hpm, hid, ha, hb⟩ := hp q hq
  have := h p hpm
  rw [ha, hb, hid, countVotes_congr db db1 hv, countVotes_congr db db1 hv]
  exact this

theorem CountersMatch_FinalizeProposal (db : DB) (pid : Int) (policy : String)
    (h : CountersMatch db) : CountersMatch (FinalizeProposal db pid policy).1 := by
  apply CountersMatch_of_same_counters db _ (FinalizeProposal_votes db pid policy) _ h
  intro q hq
  unfold FinalizeProposal at hq
  split at hq
  · exact ⟨q, hq, rfl, rfl, rfl⟩
  · simp only [finalizeTx, insertRule, updateStatus, List.mem_map] at hq
    obtain ⟨q0, hq0, rfl⟩ := hq
    refine ⟨q0, hq0, ?_⟩
    split <;> exact ⟨rfl, rfl, rfl⟩

theorem CountersMatch_checkAndFinalizeProposal (threshold : Int) (db : DB) (pid : Int)
    (h : CountersMatch db) : CountersMatch (checkAndFinalizeProposal threshold db pid).1 := by
  unfold checkAndFinalizeProposal
  split
  · exact h
  · split
    · exact h
    · split
      · exact CountersMatch_FinalizeProposal db pid _ h
      · split
        · exact CountersMatch_FinalizeProposal db pid _ h
        · exact h

theorem CountersMatch_recalculate_upsert (db : DB) (u pid : Int) (v : String)
    (h : CountersMatch db) :
    CountersMatch (recalculateVotes (upsertVote db u pid v) pid).1 := by
  intro q hq
  simp only [recalculateVotes, updateVoteCounts, List.mem_map, upsertVote_proposals] at hq
  obtain ⟨q0, hq0, rfl⟩ := hq
  have hvotes : (recalculateVotes (upsertVote db u pid v) pid).1.votes =
      (upsertVote db u pid v).votes := rfl
  rw [countVotes_congr _ _ hvotes, countVotes_congr _ _ hvotes]
  by_cases hid : q0.ID = pid
  · simp [hid]
  · have hb : (q0.ID == pid) = false := by simpa using hid
    simp only [hb, Bool.false_eq_true, if_false]
    rw [countVotes_upsertVote_other db u pid q0.ID v _ hid,
      countVotes_upsertVote_other db u pid q0.ID v _ hid]
    exact h q0 hq0

theorem CountersMatch_SubmitVote (threshold : Int) (db : DB) (u pid : Int) (v : String)
    (h : CountersMatch db) : CountersMatch (SubmitVote threshold db u pid v).1 := by
  unfold SubmitVote
  split
  · exact h
  · split
    · exact h
    · split
      · exact h
      · have h2 := CountersMatch_recalculate_upsert db u pid v h
        simp only [recalculateVotes] at h2 ⊢
        exact CountersMatch_checkAndFinalizeProposal threshold _ pid h2

theorem CountersMatch_runOps (threshold : Int) (ops : List Op) (db : DB)
    (h : CountersMatch db) : CountersMatch (runOps threshold db ops) := by
  induction ops generalizing db with
  | nil => exact h
  | cons op rest ih =>
    apply ih
    cases op with
    | submitVote u pid v => exact CountersMatch_SubmitVote threshold db u pid v h
    | finalize pid policy => exact CountersMatch_FinalizeProposal db pid policy h
    | adminApprove pid policy => exact CountersMatch_FinalizeProposal db pid policy h

/-- C11.  Start from a store whose ledger is empty and whose proposals all have both
counters 0, and make any series of `SubmitVote`, `FinalizeProposal` and
`AdminApproveProposal` calls, one after the other, under any threshold.  In the store
reached, `allowlist_votes` of every proposal is the number of its vote rows of type
ALLOWLIST and `blocklist_votes` the number of its vote rows of type BLOCKLIST. -/
theorem runOps_counters_match_ledger (threshold : Int) (db : DB) (ops : List Op)
    (hvotes : db.votes = [])
    (hzero : ∀ p ∈ db.proposals, p.AllowlistVotes = 0 ∧ p.BlocklistVotes = 0) :
    ∀ p ∈ (runOps threshold db ops).proposals,
      p.AllowlistVotes = countVotes (runOps threshold db ops) p.ID VoteTypeAllowlist ∧
      p.BlocklistVotes = countVotes (runOps threshold db ops) p.ID VoteTypeBlocklist := by
  apply CountersMatch_runOps threshold ops db
  intro p hp
  simp [countVotes, hvotes, hzero p hp]

/-- A history on `pendingDB` under threshold 3: user 1 votes ALLOWLIST, user 2 votes
BLOCKLIST, user 1 changes to BLOCKLIST; the proposal ends with counters 0 and 2. -/
theorem runOps_counters_match_ledger_witness :
    pendingDB.votes = [] ∧
    (runOps 3 pendingDB [.submitVote 1 1 "ALLOWLIST", .submitVote 2 1 "BLOCKLIST",
        .submitVote 1 1 "BLOCKLIST"]).proposals.map
      (fun p => (p.ID, p.AllowlistVotes, p.BlocklistVotes)) = [(1, 0, 2)] ∧
    ∀ p ∈ (runOps 3 pendingDB [.submitVote 1 1 "ALLOWLIST", .submitVote 2 1 "BLOCKLIST",
        .submitVote 1 1 "BLOCKLIST"]).proposals,
      p.AllowlistVotes = countVotes (runOps 3 pendingDB [.submitVote 1 1 "ALLOWLIST",
        .submitVote 2 1 "BLOCKLIST", .submitVote 1 1 "BLOCKLIST"]) p.ID VoteTypeAllowlist ∧
      p.BlocklistVotes = countVotes (runOps 3 pendingDB [.submitVote 1 1 "ALLOWLIST",
        .submitVote 2 1 "BLOCKLIST", .submitVote 1 1 "BLOCKLIST"]) p.ID VoteTypeBlocklist :=
  ⟨rfl, by decide, runOps_counters_match_ledger 3 pendingDB _ rfl (by decide)⟩

/-! ## Preflight: the device merge -/

theorem find?_map_of_key {α : Type} (l : List α) (f : α → α) (k : α → Bool)
    (hk : ∀ x, k (f x) = k x) : (l.map f).find? k = (l.find? k).map f := by
  induction l with
  | nil => rfl
  | cons x rest ih =>
    by_cases hx : k x = true
    · have hfx : k (f x) = true := by rw [hk]; exact hx
      simp [List.find?_cons, hx, hfx]
    · have hx2 : k x = false := by simpa using hx
      have hfx : k (f x) = false := by rw [hk]; exact hx2
      simp [List.find?_cons, hx2, hfx, ih]

theorem selectMachine_id (db : DB) (machineID : String) (m : Machine)
    (h : selectMachine db machineID = some m) : m.MachineID = machineID := by
  have := List.find?_some h
  simpa using this

theorem selectMachine_any (db : DB) (machineID : String) (m : Machine)
    (h : selectMachine db machineID = some m) :
    db.machines.any (fun r => r.MachineID == machineID) = true := by
  rw [List.any_eq_true]
  exact ⟨m, List.mem_of_find?_eq_some h, by simpa using selectMachine_id db machineID m h⟩

theorem selectMachine_not_any (db : DB) (machineID : String)
    (h : selectMachine db machineID = none) :
    db.machines.any (fun r => r.MachineID == machineID) = false := by
  unfold selectMachine at h
  rw [List.find?_eq_none] at h
  rw [Bool.eq_false_iff]
  intro hany
  obtain ⟨x, hx, hkey⟩ := List.any_eq_true.mp hany
  exact h x hx hkey

theorem selectMachine_map (db : DB) (machineID : String) (f : Machine → Machine)
    (hf : ∀ r, (f r).MachineID = r.MachineID) :
    selectMachine { db with machines := db.machines.map f } machineID =
      (selectMachine db machineID).map f := by
  unfold selectMachine
  exact find?_map_of_key db.machines f _ (fun r => by simp [hf r])

theorem selectMachine_machines_map (db db1 : DB) (machineID : String)
    (f : Machine → Machine) (hf : ∀ r, (f r).MachineID = r.MachineID)
    (h : db1.machines = db.machines.map f) :
    selectMachine db1 machineID = (selectMachine db machineID).map f := by
  unfold selectMachine
  rw [h]
  exact find?_map_of_key db.machines f _ (fun r => by simp [hf r])

theorem selectMachine_upsertPreflightStamp (db : DB) (machineID : String) (now : Int)
    (m : Machine) (hsel : selectMachine db machineID = some m) :
    selectMachine (upsertPreflightStamp db machineID now) machineID =
      some { m with LastPreflightSync := some now } := by
  unfold upsertPreflightStamp
  rw [if_pos (selectMachine_any db machineID m hsel)]
  refine (selectMachine_machines_map db _ machineID _ (fun r => ?_) rfl).trans ?_
  · split <;> rfl
  · rw [hsel]
    simp [selectMachine_id db machineID m hsel]

theorem selectMachine_upsertMachine (db : DB) (machineID serial hostname osVersion osBuild
    santaVersion clientMode : String) (now : Int) (m : Machine)
    (hsel : selectMachine db machineID = some m)
    (hmode : checkClientMode (some clientMode) = true) :
    ∃ db1, upsertMachine db machineID serial hostname osVersion osBuild santaVersion
        clientMode now = some db1 ∧
      selectMachine db1 machineID =
        some { m with SerialNumber := coalesceNullif serial m.SerialNumber,
                      Hostname := coalesceNullif hostname m.Hostname,
                      OSVersion := coalesceNullif osVersion m.OSVersion,
                      OSBuild := coalesceNullif osBuild m.OSBuild,
                      SantaVersion := coalesceNullif santaVersion m.SantaVersion,
                      ClientMode := if clientMode != "" then some clientMode else m.ClientMode,
                      LastPreflightSync := some now } := by
  unfold upsertMachine
  simp only [hmode, Bool.not_true, Bool.false_eq_true, if_false,
    if_pos (selectMachine_any db machineID m hsel)]
  refine ⟨_, rfl, ?_⟩
  refine (selectMachine_machines_map db _ machineID _ (fun r => ?_) rfl).trans ?_
  · split <;> rfl
  · rw [hsel]
    simp [selectMachine_id db machineID m hsel]

theorem Preflight_existing (db : DB) (machineID : String) (input : PreflightInput) (now : Int)
    (m : Machine) (hsel : selectMachine db machineID = some m) :
    selectMachine (Preflight db machineID input now).1 machineID =
      some (if (computeClientMode input == "" && input.SerialNumber == "" &&
                input.Hostname == "") = true then
              { m with LastPreflightSync := some now }
            else if checkClientMode (some (computeClientMode input)) = true then
              { m with SerialNumber := coalesceNullif input.SerialNumber m.SerialNumber,
                       Hostname := coalesceNullif input.Hostname m.Hostname,
                       OSVersion := coalesceNullif input.OSVersion m.OSVersion,
                       OSBuild := coalesceNullif input.OSBuild m.OSBuild,
                       SantaVersion := coalesceNullif input.SantaVersion m.SantaVersion,
                       ClientMode := if computeClientMode input != "" then
                                       some (computeClientMode input) else m.ClientMode,
                       LastPreflightSync := some now }
            else m) := by
  unfold Preflight
  by_cases hfast : (computeClientMode input == "" && input.SerialNumber == "" &&
      input.Hostname == "") = true
  · simp only [hfast, if_true]
    exact selectMachine_upsertPreflightStamp db machineID now m hsel
  · simp only [hfast, if_false]
    by_cases hmode : checkClientMode (some (computeClientMode input)) = true
    · obtain ⟨db1, h1, h2⟩ := selectMachine_upsertMachine db machineID input.SerialNumber
        input.Hostname input.OSVersion input.OSBuild input.SantaVersion
        (computeClientMode input) now m hsel hmode
      simp only [h1, hmode, if_true]
      exact h2
    · have hnone : upsertMachine db machineID input.SerialNumber input.Hostname
          input.OSVersion input.OSBuild input.SantaVersion (computeClientMode input) now =
          none := by
        unfold upsertMachine
        simp [hmode]
      simp only [hnone, hmode, if_false]
      exact hsel

theorem checkClientMode_of_valid (mode : String)
    (h : mode = ClientModeMonitor ∨ mode = ClientModeLockdown) :
    checkClientMode (some mode) = true ∧ mode ≠ "" := by
  rcases h with h | h <;> subst h <;> decide

/-- C12 (counterexample).  The device "dev1" is stored with os_version 13.0; a preflight
that carries only os_version 14.0 (no mode, no serial, no host name) leaves 13.0 in the
row. -/
theorem Preflight_keeps_os_version_without_mode_serial_hostname :
    (selectMachine (Preflight deviceDB "dev1"
        { emptyPreflightInput with OSVersion := "14.0" } 200).1 "dev1").map
      (fun m => m.OSVersion) = some (some "13.0") := by
  decide

/-- C12 (amended).  For an existing device row: when the computed mode is MONITOR or
LOCKDOWN, after `Preflight` each of serial_number, hostname, os_version, os_build and
santa_version holds the incoming value if that is non-empty and the stored value if it is
empty, and client_mode holds the computed mode; when the computed mode, the serial number
and the host name are all empty, all six fields keep their stored values, whatever the
incoming os_version, os_build and santa_version are. -/
theorem Preflight_merge_fields (db : DB) (machineID : String) (input : PreflightInput)
    (now : Int) (m : Machine) (hsel : selectMachine db machineID = some m) :
    ∃ m1, selectMachine (Preflight db machineID input now).1 machineID = some m1 ∧
      (computeClientMode input = ClientModeMonitor ∨
          computeClientMode input = ClientModeLockdown →
        m1.SerialNumber =
          (if input.SerialNumber = "" then m.SerialNumber else some input.SerialNumber) ∧
        m1.Hostname = (if input.Hostname = "" then m.Hostname else some input.Hostname) ∧
        m1.OSVersion = (if input.OSVersion = "" then m.OSVersion else some input.OSVersion) ∧
        m1.OSBuild = (if input.OSBuild = "" then m.OSBuild else some input.OSBuild) ∧
        m1.SantaVersion =
          (if input.SantaVersion = "" then m.SantaVersion else some input.SantaVersion) ∧
        m1.ClientMode = some (computeClientMode input)) ∧
      (computeClientMode input = "" → input.SerialNumber = "" → input.Hostname = "" →
        m1.SerialNumber = m.SerialNumber ∧ m1.Hostname = m.Hostname ∧
        m1.OSVersion = m.OSVersion ∧ m1.OSBuild = m.OSBuild ∧
        m1.SantaVersion = m.SantaVersion ∧ m1.ClientMode = m.ClientMode) := by
  refine ⟨_, Preflight_existing db machineID input now m hsel, ?_, ?_⟩
  · intro hmode
    obtain ⟨hcheck, hne⟩ := checkClientMode_of_valid _ hmode
    simp [hcheck, hne, coalesceNullif]
  · intro h1 h2 h3
    simp [h1, h2, h3]

theorem Preflight_merge_fields_witness :
    ∃ m1, selectMachine (Preflight deviceDB "dev1"
        { emptyPreflightInput with OSVersion := "14.0", ClientModeString := "lockdown" }
        200).1 "dev1" = some m1 ∧
      m1.OSVersion = some "14.0" ∧ m1.Hostname = some "alice" ∧
      m1.ClientMode = some "LOCKDOWN" :=
  have ⟨m1, h1, h2, _⟩ := Preflight_merge_fields deviceDB "dev1"
    { emptyPreflightInput with OSVersion := "14.0", ClientModeString := "lockdown" } 200
    sampleMachine (by decide)
  have h3 := h2 (Or.inr (by decide))
  ⟨m1, h1, h3.2.2.1, h3.2.1, h3.2.2.2.2.2⟩

theorem nonEmpty_coalesceNullif (incoming : String) (stored : Option String)
    (h : nonEmpty stored) : nonEmpty (coalesceNullif incoming stored) := by
  unfold coalesceNullif
  by_cases hin : incoming = ""
  · simpa [hin] using h
  · simp [hin, nonEmpty]

/-- C13.  For an existing device row and any preflight telemetry, the row is still there
after `Preflight`, and each of serial_number, hostname, os_version, os_build,
santa_version and client_mode that was neither NULL nor empty before is neither NULL nor
empty after; machine_id and enrolled_at are unchanged, and last_sync and
last_preflight_sync, when set before, are set after. -/
theorem Preflight_keeps_non_empty_fields (db : DB) (machineID : String)
    (input : PreflightInput) (now : Int) (m : Machine)
    (hsel : selectMachine db machineID = some m) :
    ∃ m1, selectMachine (Preflight db machineID input now).1 machineID = some m1 ∧
      (nonEmpty m.SerialNumber → nonEmpty m1.SerialNumber) ∧
      (nonEmpty m.Hostname → nonEmpty m1.Hostname) ∧
      (nonEmpty m.OSVersion → nonEmpty m1.OSVersion) ∧
      (nonEmpty m.OSBuild → nonEmpty m1.OSBuild) ∧
      (nonEmpty m.SantaVersion → nonEmpty m1.SantaVersion) ∧
      (nonEmpty m.ClientMode → nonEmpty m1.ClientMode) ∧
      m1.MachineID = m.MachineID ∧ m1.ID = m.ID ∧ m1.EnrolledAt = m.EnrolledAt ∧
      (m.LastSync ≠ none → m1.LastSync ≠ none) ∧
      (m.LastPreflightSync ≠ none → m1.LastPreflightSync ≠ none) := by
  refine ⟨_, Preflight_existing db machineID input now m hsel, ?_⟩
  by_cases hfast : (computeClientMode input == "" && input.SerialNumber == "" &&
      input.Hostname == "") = true
  · simp only [hfast, if_true]
    simp
  · simp only [hfast, if_false]
    by_cases hmode : checkClientMode (some (computeClientMode input)) = true
    · simp only [hmode, if_true]
      refine ⟨nonEmpty_coalesceNullif _ _, nonEmpty_coalesceNullif _ _,
        nonEmpty_coalesceNullif _ _, nonEmpty_coalesceNullif _ _,
        nonEmpty_coalesceNullif _ _, ?_, rfl, rfl, rfl, id, by simp⟩
      intro h
      by_cases hne : computeClientMode input = ""
      · simpa [hne] using h
      · simp [hne, nonEmpty]
    · simp only [hmode, if_false]
      simp

theorem Preflight_keeps_non_empty_fields_witness :
    ∃ m1, selectMachine (Preflight deviceDB "dev1"
        { emptyPreflightInput with Hostname := "bob", ClientModeInt := 2 } 200).1 "dev1" =
        some m1 ∧
      nonEmpty m1.SerialNumber ∧ nonEmpty m1.OSVersion :=
  have ⟨m1, h1, h2, _, h3, _⟩ := Preflight_keeps_non_empty_fields deviceDB "dev1"
    { emptyPreflightInput with Hostname := "bob", ClientModeInt := 2 } 200
    sampleMachine (by decide)
  ⟨m1, h1, h2 ⟨by decide, by decide⟩, h3 ⟨by decide, by decide⟩⟩

theorem Preflight_empty_eq (db : DB) (machineID : String) (now : Int) :
    (Preflight db machineID emptyPreflightInput now).1 =
      upsertPreflightStamp db machineID now := by
  rfl

theorem upsertPreflightStamp_existing (db : DB) (machineID : String) (now : Int)
    (m : Machine) (hsel : selectMachine db machineID = some m) :
    upsertPreflightStamp db machineID now =
      { db with machines := db.machines.map (fun r =>
          if r.MachineID == machineID then { r with LastPreflightSync := some now }
          else r),
                machinesSeq := nextID (db.machines.map (fun r => r.ID)) db.machinesSeq } := by
  unfold upsertPreflightStamp
  rw [if_pos (selectMachine_any db machineID m hsel)]

/-- C14.  For an existing device row, a `Preflight` with entirely empty telemetry changes no
row of the store but those of that device, and of them only `last_preflight_sync`, which
becomes the time of the call: the device is read back as before with the new stamp, every
other device row is as it was, no device row is added or removed, and the proposals, votes,
rules and events tables are as they were (among the sequence counters the one of table
machines advances, as for every upsert).  A second such preflight, at any time, yields the
same device rows up to `last_preflight_sync`. -/
theorem Preflight_empty_only_stamps (db : DB) (machineID : String) (now : Int) (m : Machine)
    (hsel : selectMachine db machineID = some m) :
    (Preflight db machineID emptyPreflightInput now).1 =
      { db with machines := db.machines.map (fun r =>
          if r.MachineID == machineID then { r with LastPreflightSync := some now }
          else r),
                machinesSeq := nextID (db.machines.map (fun r => r.ID)) db.machinesSeq } ∧
    selectMachine (Preflight db machineID emptyPreflightInput now).1 machineID =
      some { m with LastPreflightSync := some now } ∧
    (Preflight db machineID emptyPreflightInput now).1.machines.filter
        (fun r => r.MachineID != machineID) =
      db.machines.filter (fun r => r.MachineID != machineID) ∧
    (Preflight db machineID emptyPreflightInput now).1.machines.map
        (fun r => { r with LastPreflightSync := none }) =
      db.machines.map (fun r => { r with LastPreflightSync := none }) ∧
    (Preflight db machineID emptyPreflightInput now).1.proposals = db.proposals ∧
    (Preflight db machineID emptyPreflightInput now).1.votes = db.votes ∧
    (Preflight db machineID emptyPreflightInput now).1.rules = db.rules ∧
    (Preflight db machineID emptyPreflightInput now).1.events = db.events ∧
    ∀ now2 : Int,
      (Preflight (Preflight db machineID emptyPreflightInput now).1 machineID
          emptyPreflightInput now2).1.machines.map
        (fun r => { r with LastPreflightSync := none }) =
      (Preflight db machineID emptyPreflightInput now).1.machines.map
        (fun r => { r with LastPreflightSync := none }) := by
  have hstamp := selectMachine_upsertPreflightStamp db machineID now m hsel
  have herase : ∀ (machines : List Machine) (t : Int),
      (machines.map (fun r =>
          if r.MachineID == machineID then { r with LastPreflightSync := some t }
          else r)).map (fun r => { r with LastPreflightSync := none }) =
        machines.map (fun r => { r with LastPreflightSync := none }) := by
    intro machines t
    simp only [List.map_map]
    apply List.map_congr_left
    intro r _
    simp only [Function.comp]
    split <;> rfl
  rw [Preflight_empty_eq]
  refine ⟨upsertPreflightStamp_existing db machineID now m hsel, hstamp, ?_, ?_, ?_, ?_, ?_,
    ?_, ?_⟩
  · rw [upsertPreflightStamp_existing db machineID now m hsel]
    simp only
    induction db.machines with
    | nil => rfl
    | cons r rest ih =>
      rw [List.map_cons, List.filter_cons, List.filter_cons, ih]
      by_cases hr : r.MachineID = machineID
      · simp [hr]
      · simp [hr]
  · rw [upsertPreflightStamp_existing db machineID now m hsel]
    exact herase db.machines now
  · rw [upsertPreflightStamp_existing db machineID now m hsel]
  · rw [upsertPreflightStamp_existing db machineID now m hsel]
  · rw [upsertPreflightStamp_existing db machineID now m hsel]
  · rw [upsertPreflightStamp_existing db machineID now m hsel]
  · intro now2
    rw [Preflight_empty_eq, upsertPreflightStamp_existing _ machineID now2 _ hstamp]
    exact herase _ now2

theorem Preflight_empty_only_stamps_witness :
    (Preflight deviceDB "dev1" emptyPreflightInput 200).1.machines =
      [{ ID := 1, MachineID := "dev1", SerialNumber := some "C02X", Hostname := some "alice",
         OSVersion := some "13.0", OSBuild := some "22A", SantaVersion := some "2024.1",
         ClientMode := some "MONITOR", EnrolledAt := 10, LastSync := some 50,
         LastPreflightSync := some 200 }] ∧
    (Preflight deviceDB "dev1" emptyPreflightInput 200).1.machinesSeq = 2 ∧
    selectMachine (Preflight deviceDB "dev1" emptyPreflightInput 200).1 "dev1" =
      some { sampleMachine with LastPreflightSync := some 200 } :=
  have h := Preflight_empty_only_stamps deviceDB "dev1" 200 sampleMachine (by decide)
  ⟨by decide, by decide, h.2.1⟩

/-- C15 (the code at the failing input).  For the client_mode string "foo" the mode computed
by `Preflight` is "FOO", which is none of MONITOR, LOCKDOWN and the empty text. -/
theorem computeClientMode_foo :
    computeClientMode { emptyPreflightInput with ClientModeString := "foo" } = "FOO" ∧
    computeClientMode { emptyPreflightInput with ClientModeString := "foo" } ≠ "MONITOR" ∧
    computeClientMode { emptyPreflightInput with ClientModeString := "foo" } ≠ "LOCKDOWN" ∧
    computeClientMode { emptyPreflightInput with ClientModeString := "foo" } ≠ "" := by
  decide

/-- C16 (the code at the failing input).  A preflight with the client_mode string "foo" at
time 200 leaves the store as it was: the existing device "dev1" keeps its stamp 100, and a
device without a row gets none.  The same happens for a preflight that carries a host name
and no mode. -/
theorem Preflight_invalid_mode_no_stamp :
    (Preflight deviceDB "dev1" { emptyPreflightInput with ClientModeString := "foo" } 200).1 =
      deviceDB ∧
    (selectMachine (Preflight deviceDB "dev1"
        { emptyPreflightInput with ClientModeString := "foo" } 200).1 "dev1").map
      (fun m => m.LastPreflightSync) = some (some 100) ∧
    (Preflight emptyDB "dev1" { emptyPreflightInput with ClientModeString := "foo" } 200).1 =
      emptyDB ∧
    (Preflight deviceDB "dev1" { emptyPreflightInput with Hostname := "bob" } 200).1 =
      deviceDB := by
  decide

/-! ## The other sync phases -/

theorem eventUploadLoop_spec (machineID : String) (attempts : List (SantaEvent × Bool))
    (acc : DB × Nat) :
    (attempts.foldl (eventUploadStep machineID) acc).2 =
        acc.2 + (attempts.filter (fun a => a.2)).length ∧
    (attempts.foldl (eventUploadStep machineID) acc).1.events.map
        (fun e => { e with ID := 0 }) =
      acc.1.events.map (fun e => { e with ID := 0 }) ++
        (attempts.filter (fun a => a.2)).map (fun a => eventRow 0 machineID a.1) ∧
    (attempts.foldl (eventUploadStep machineID) acc).1.machines = acc.1.machines ∧
    (attempts.foldl (eventUploadStep machineID) acc).1.rules = acc.1.rules ∧
    (attempts.foldl (eventUploadStep machineID) acc).1.proposals = acc.1.proposals ∧
    (attempts.foldl (eventUploadStep machineID) acc).1.votes = acc.1.votes := by
  induction attempts generalizing acc with
  | nil => simp
  | cons a rest ih =>
    rw [List.foldl_cons]
    obtain ⟨h1, h2, h3, h4, h5, h6⟩ := ih (eventUploadStep machineID acc a)
    rw [h1, h2, h3, h4, h5, h6]
    cases ha : a.2 with
    | false => simp [eventUploadStep, insertEvent, ha]
    | true =>
      simp [eventUploadStep, insertEvent, ha, eventRow]
      omega

/-- C17 (counterexample).  On a store without device rows, `Postflight`, the write of
`RuleDownload` and `EventUpload` (with one event, stored) for "dev1" leave "dev1" without a
row. -/
theorem sync_phases_do_not_create_device :
    selectMachine (Postflight emptyDB "dev1" 200).1 "dev1" = none ∧
    selectMachine (ruleDownloadStore emptyDB "dev1" 200) "dev1" = none ∧
    selectMachine (EventUpload emptyDB "dev1" (some [(sampleEvent "h1", true)])).1 "dev1" =
      none := by
  decide

/-- C17 (amended).  For a device id without a device row: after a `Preflight` whose
computed mode is MONITOR or LOCKDOWN, or whose computed mode, serial number and host name
are all empty, a row with that id exists; after `Postflight`, after the write of
`RuleDownload` and after `EventUpload` the id still has no row. -/
theorem device_row_created_by_Preflight_only (db : DB) (machineID : String) (now : Int)
    (hnone : selectMachine db machineID = none) :
    (∀ input : PreflightInput,
      (computeClientMode input = ClientModeMonitor ∨
        computeClientMode input = ClientModeLockdown ∨
        (computeClientMode input = "" ∧ input.SerialNumber = "" ∧ input.Hostname = "")) →
      ∃ m, selectMachine (Preflight db machineID input now).1 machineID = some m) ∧
    selectMachine (Postflight db machineID now).1 machineID = none ∧
    selectMachine (ruleDownloadStore db machineID now) machineID = none ∧
    ∀ input, selectMachine (EventUpload db machineID input).1 machineID = none := by
  have hany := selectMachine_not_any db machineID hnone
  have hupd : selectMachine (updateLastSync db machineID now) machineID = none := by
    unfold updateLastSync
    rw [selectMachine_map, hnone]
    · rfl
    · intro r; split <;> rfl
  refine ⟨?_, hupd, hupd, ?_⟩
  · intro input hcase
    have hfind : ∀ (row : Machine), row.MachineID = machineID →
        ∃ m, List.find? (fun m => m.MachineID == machineID) (db.machines ++ [row]) =
          some m := by
      intro row hrow
      refine ⟨row, ?_⟩
      rw [List.find?_append]
      unfold selectMachine at hnone
      simp [hnone, hrow]
    unfold Preflight
    by_cases hfast : (computeClientMode input == "" && input.SerialNumber == "" &&
        input.Hostname == "") = true
    · simp only [hfast, if_true]
      unfold upsertPreflightStamp selectMachine
      simp only [hany, Bool.false_eq_true, if_false]
      exact hfind _ rfl
    · simp only [hfast, if_false]
      have hmode : computeClientMode input = ClientModeMonitor ∨
          computeClientMode input = ClientModeLockdown := by
        rcases hcase with h | h | ⟨h1, h2, h3⟩
        · exact Or.inl h
        · exact Or.inr h
        · simp [h1, h2, h3] at hfast
      have hcheck := (checkClientMode_of_valid _ hmode).1
      unfold upsertMachine selectMachine
      simp only [hcheck, Bool.not_true, hany, Bool.false_eq_true, if_false]
      exact hfind _ rfl
  · intro input
    cases input with
    | none => exact hnone
    | some attempts =>
      have h := (eventUploadLoop_spec machineID attempts (db, 0)).2.2.1
      simp only [EventUpload, selectMachine] at h ⊢
      rw [h]
      exact hnone

theorem device_row_created_by_Preflight_only_witness :
    (∃ m, selectMachine (Preflight emptyDB "dev1" emptyPreflightInput 200).1 "dev1" = some m) ∧
    selectMachine (Postflight emptyDB "dev1" 200).1 "dev1" = none :=
  have h := device_row_created_by_Preflight_only emptyDB "dev1" 200 (by decide)
  ⟨h.1 emptyPreflightInput (Or.inr (Or.inr (by decide))), h.2.1⟩

/-- C18.  `Postflight` answers 200 with the empty object, and the store after it is the
store before it except for `last_sync` of the device rows with the given id, which becomes
the time of the call: the rules, proposals, votes and events tables and the sequence
counters are the same, no device row is added or removed, and every device row with
another id is unchanged. -/
theorem Postflight_only_stamps_last_sync (db : DB) (machineID : String) (now : Int) :
    (Postflight db machineID now).2 = { status := 200, body := "{}" } ∧
    (Postflight db machineID now).1 =
      { db with machines := db.machines.map (fun r =>
          if r.MachineID == machineID then { r with LastSync := some now } else r) } ∧
    (Postflight db machineID now).1.rules = db.rules ∧
    (Postflight db machineID now).1.proposals = db.proposals ∧
    (Postflight db machineID now).1.votes = db.votes ∧
    (Postflight db machineID now).1.events = db.events ∧
    (Postflight db machineID now).1.machines.map (fun r => { r with LastSync := none }) =
      db.machines.map (fun r => { r with LastSync := none }) ∧
    (Postflight db machineID now).1.machines.filter (fun r => r.MachineID != machineID) =
      db.machines.filter (fun r => r.MachineID != machineID) := by
  refine ⟨rfl, rfl, rfl, rfl, rfl, rfl, ?_, ?_⟩
  · simp only [Postflight, updateLastSync, List.map_map]
    apply List.map_congr_left
    intro r _
    simp only [Function.comp]
    split <;> rfl
  · simp only [Postflight, updateLastSync]
    induction db.machines with
    | nil => rfl
    | cons r rest ih =>
      rw [List.map_cons, List.filter_cons, List.filter_cons, ih]
      by_cases hr : r.MachineID = machineID
      · simp [hr]
      · simp [hr]

/-- C19.  `EventUpload` answers with the acknowledgement (status 200) whether or not the
body binds and whatever inserts fail.  For a bound list of events, the events table
afterwards is the old one followed by one row for each event whose insert succeeded, and
for no other, in the order of the input; the row of an event holds the device id of the
request and the hash, path, execution time, decision, user, certificate, bundle, signing
and quarantine fields of that event (the row ids apart).  `eventCount` is the number of
stored events, the other tables are unchanged, and without a bound list nothing is stored. -/
theorem EventUpload_stores_accepted_events (db : DB) (machineID : String)
    (attempts : List (SantaEvent × Bool)) :
    (EventUpload db machineID (some attempts)).2.1 = eventUploadAck ∧
    eventUploadAck.status = 200 ∧
    (EventUpload db machineID (some attempts)).2.2 =
      (attempts.filter (fun a => a.2)).length ∧
    (EventUpload db machineID (some attempts)).1.events.map (fun e => { e with ID := 0 }) =
      db.events.map (fun e => { e with ID := 0 }) ++
        (attempts.filter (fun a => a.2)).map (fun a =>
          ({ ID := 0, MachineID := machineID, FilePath := some a.1.FilePath,
             FileHash := a.1.FileSHA256, ExecutionTime := a.1.ExecutionTime,
             Decision := some a.1.Decision, ExecutingUser := some a.1.ExecutingUser,
             CertSHA256 := some a.1.CertificateSHA256, CertCN := some a.1.CertificateCN,
             BundleID := some a.1.BundleID, BundleName := some a.1.BundleName,
             BundlePath := some a.1.BundlePath, SigningID := some a.1.SigningID,
             TeamID := some a.1.TeamID,
             QuarantineDataURL := some a.1.QuarantineDataURL } : Event)) ∧
    (EventUpload db machineID (some attempts)).1.machines = db.machines ∧
    (EventUpload db machineID (some attempts)).1.rules = db.rules ∧
    (EventUpload db machineID (some attempts)).1.proposals = db.proposals ∧
    (EventUpload db machineID (some attempts)).1.votes = db.votes ∧
    EventUpload db machineID none = (db, eventUploadAck, 0) := by
  obtain ⟨h1, h2, h3, h4, h5, h6⟩ := eventUploadLoop_spec machineID attempts (db, 0)
  refine ⟨rfl, rfl, ?_, ?_, h3, h4, h5, h6, rfl⟩
  · simpa [EventUpload] using h1
  · simpa [EventUpload, eventRow] using h2

/-- Three events are uploaded for "dev1" into an empty store and the insert of the second
fails: the table holds the first and the third, field for field, with ids 1 and 2. -/
theorem EventUpload_stores_accepted_events_witness :
    (EventUpload emptyDB "dev1" (some [(sampleEvent "h1", true), (sampleEvent "h2", false),
        (blockedEvent "h3", true)])).2.1 =
      eventUploadAck ∧
    (EventUpload emptyDB "dev1" (some [(sampleEvent "h1", true), (sampleEvent "h2", false),
        (blockedEvent "h3", true)])).1.events =
      [{ ID := 1, MachineID := "dev1", FilePath := some "/Applications/App.app",
         FileHash := "h1", ExecutionTime := 1700000000, Decision := some "ALLOW",
         ExecutingUser := some "alice", CertSHA256 := some "", CertCN := some "",
         BundleID := some "", BundleName := some "", BundlePath := some "",
         SigningID := some "", TeamID := some "", QuarantineDataURL := some "" },
       { ID := 2, MachineID := "dev1", FilePath := some "/usr/bin/tool",
         FileHash := "h3", ExecutionTime := 1700000050, Decision := some "BLOCK",
         ExecutingUser := some "bob", CertSHA256 := some "", CertCN := some "",
         BundleID := some "", BundleName := some "", BundlePath := some "",
         SigningID := some "", TeamID := some "TEAM9", QuarantineDataURL := some "" }] :=
  have h := EventUpload_stores_accepted_events emptyDB "dev1"
    [(sampleEvent "h1", true), (sampleEvent "h2", false),
     (blockedEvent "h3", true)]
  ⟨h.1, by decide⟩

/-- C20 (the code at the failing input).  With no Content-Encoding, a content type that
contains "json" and the empty body, `Decompress` panics: it reads `bodyBytes[0]` for its
log line before it tests the length. -/
theorem Decompress_empty_json_body_panics (codecs : Codecs) :
    Decompress codecs "" "application/json" [] = .panic := by
  simp [Decompress]
  decide

/-! ## Decompress -/

theorem framingCodecs_laws : CodecLaws framingCodecs framingEncoders :=
  { gzip_decode := fun _ => rfl,
    zlib_decode := fun _ => rfl,
    flate_decode := fun _ => rfl,
    zlib_rejects_flate := fun _ => rfl,
    gzip_magic := fun _ => rfl }

theorem Decompress_gzip (codecs : Codecs) (contentType : String) (body : Bytes) :
    Decompress codecs "gzip" contentType body =
      match codecs.gzipDecode body with
      | none => .abort 400 "Failed to decompress gzip"
      | some d => .next d "" := by
  have h1 : (("gzip" : String) == "") = false := by decide
  have h2 : ToLower "gzip" = "gzip" := by decide
  simp only [Decompress, h1, Bool.false_and, Bool.false_eq_true, if_false, h2]

theorem Decompress_deflate (codecs : Codecs) (contentType : String) (body : Bytes) :
    Decompress codecs "deflate" contentType body =
      if (match codecs.zlibDecode body with
          | some d => if d.length > 0 then d else []
          | none => []).length = 0 then
        match codecs.flateDecode body with
        | none => .abort 400 "Failed to decompress deflate"
        | some d => .next d ""
      else
        .next (match codecs.zlibDecode body with
               | some d => if d.length > 0 then d else []
               | none => []) "" := by
  have h1 : (("deflate" : String) == "") = false := by decide
  have h2 : ToLower "deflate" = "deflate" := by decide
  simp only [Decompress, h1, Bool.false_and, Bool.false_eq_true, if_false, h2, beq_iff_eq]

/-- C21 (counterexample).  The zlib stream of the empty payload, sent with Content-Encoding
deflate: the zlib decoder returns the empty payload, `Decompress` takes the empty output
for a failure, tries raw deflate, which rejects the stream, and answers 400. -/
theorem Decompress_rejects_zlib_of_empty_payload :
    observedCodecs.zlibDecode emptyZlibStream = some [] ∧
    Decompress observedCodecs "deflate" "application/json" emptyZlibStream =
      .abort 400 "Failed to decompress deflate" := by
  decide

/-- C21 (amended).  With decoders that undo the encoders: `Decompress` applied to `gzip p`
with Content-Encoding gzip hands on exactly `p`, for every `p`; applied to the zlib-wrapped
deflate of `p` with Content-Encoding deflate it hands on exactly `p`, for every non-empty
`p`; applied to the raw deflate of `p` with Content-Encoding deflate it hands on exactly
`p`, for every `p`.  The Content-Encoding header is removed in each case. -/
theorem Decompress_declared_round_trip (codecs : Codecs) (enc : Encoders)
    (laws : CodecLaws codecs enc) (contentType : String) (p : Bytes) :
    Decompress codecs "gzip" contentType (enc.gzip p) = .next p "" ∧
    (p ≠ [] → Decompress codecs "deflate" contentType (enc.zlib p) = .next p "") ∧
    Decompress codecs "deflate" contentType (enc.flate p) = .next p "" := by
  refine ⟨?_, ?_, ?_⟩
  · rw [Decompress_gzip, laws.gzip_decode]
  · intro hp
    have hlen : p.length > 0 := List.length_pos.mpr hp
    have hne : ¬ p.length = 0 := by omega
    rw [Decompress_deflate, laws.zlib_decode]
    simp only [hlen, if_true, hne, if_false]
  · rw [Decompress_deflate, laws.zlib_rejects_flate, laws.flate_decode]
    simp

theorem Decompress_declared_round_trip_witness :
    Decompress framingCodecs "gzip" "application/json" (framingEncoders.gzip [123, 125]) =
      .next [123, 125] "" ∧
    Decompress framingCodecs "deflate" "application/json" (framingEncoders.zlib [123, 125]) =
      .next [123, 125] "" ∧
    Decompress framingCodecs "deflate" "application/json" (framingEncoders.flate []) =
      .next [] "" :=
  have h := Decompress_declared_round_trip framingCodecs framingEncoders framingCodecs_laws
    "application/json" [123, 125]
  have h0 := Decompress_declared_round_trip framingCodecs framingEncoders framingCodecs_laws
    "application/json" []
  ⟨h.1, h.2.1 (by decide), h0.2.2⟩

/-- C22 (counterexample).  The gzip stream of "a", sent with no Content-Encoding and the
content type text/plain: `Decompress` hands on the gzip stream itself, not "a". -/
theorem Decompress_undeclared_gzip_not_json :
    observedCodecs.gzipDecode gzipStreamA = some [97] ∧
    Decompress observedCodecs "" "text/plain" gzipStreamA = .next gzipStreamA "" ∧
    Decompress observedCodecs "" "text/plain" gzipStreamA ≠ .next [97] "" := by
  decide

/-- C22 (amended).  With decoders that undo the encoders and no Content-Encoding: when the
content type contains "json", `Decompress` applied to `gzip p` hands on exactly `p`, for
every non-empty `p`; when the content type does not contain "json", `Decompress` hands on
every body as it was sent, with no decoding. -/
theorem Decompress_undeclared_gzip_by_content_type (codecs : Codecs) (enc : Encoders)
    (laws : CodecLaws codecs enc) (contentType : String) (p : Bytes) :
    (stringsContains contentType "json" = true → p ≠ [] →
      Decompress codecs "" contentType (enc.gzip p) = .next p "") ∧
    (stringsContains contentType "json" = false →
      ∀ body : Bytes, Decompress codecs "" contentType body = .next body "") := by
  refine ⟨?_, ?_⟩
  · intro hjson hp
    have hlen : p.length > 0 := List.length_pos.mpr hp
    have hmagic := laws.gzip_magic p
    have hdec := laws.gzip_decode p
    cases hbody : enc.gzip p with
    | nil => rw [hbody] at hmagic; simp at hmagic
    | cons first rest =>
      rw [hbody] at hmagic hdec
      simp only [List.head?_cons, Option.some.injEq] at hmagic
      subst hmagic
      simp [Decompress, hjson, hdec, hlen]
  · intro hjson body
    simp [Decompress, hjson]

theorem Decompress_undeclared_gzip_by_content_type_witness :
    Decompress framingCodecs "" "application/json" (framingEncoders.gzip [123, 125]) =
      .next [123, 125] "" ∧
    Decompress framingCodecs "" "application/x-www-form-urlencoded"
        (framingEncoders.gzip [123, 125]) =
      .next [31, 139, 123, 125] "" :=
  have hjson := (Decompress_undeclared_gzip_by_content_type framingCodecs framingEncoders
    framingCodecs_laws "application/json" [123, 125]).1
  have hform := (Decompress_undeclared_gzip_by_content_type framingCodecs framingEncoders
    framingCodecs_laws "application/x-www-form-urlencoded" [123, 125]).2
  ⟨hjson (by decide) (by decide), hform (by decide) _⟩

/-- C23.  With no Content-Encoding and a content type that contains "json", a body whose
first byte is `{` (123) or `[` (91) is handed on as it is, whatever the rest of it and
whatever the decoders would return: no decoder has a part in the result. -/
theorem Decompress_json_body_unchanged (codecs : Codecs) (contentType : String)
    (first : Nat) (rest : Bytes) (hjson : stringsContains contentType "json" = true)
    (hfirst : first = 123 ∨ first = 91) :
    Decompress codecs "" contentType (first :: rest) = .next (first :: rest) "" := by
  rcases hfirst with h | h <;> subst h <;> simp [Decompress, hjson]

theorem Decompress_json_body_unchanged_witness :
    Decompress observedCodecs "" "application/json; charset=utf-8" [91, 31, 139] =
      .next [91, 31, 139] "" :=
  Decompress_json_body_unchanged observedCodecs "application/json; charset=utf-8" 91
    [31, 139] (by decide) (Or.inr rfl)

/-- C24 (counterexample).  On the zlib stream of the empty payload the zlib attempt does not
fail (it returns the empty payload), the raw-deflate attempt fails, and the request is
rejected. -/
theorem Decompress_deflate_rejects_though_zlib_succeeds :
    observedCodecs.zlibDecode emptyZlibStream ≠ none ∧
    observedCodecs.flateDecode emptyZlibStream = none ∧
    Decompress observedCodecs "deflate" "" emptyZlibStream =
      .abort 400 "Failed to decompress deflate" := by
  decide

/-- C24 (amended).  With Content-Encoding deflate, for every body: when zlib decoding
succeeds with non-empty output, that output is handed on; otherwise (zlib fails or yields
no bytes) the raw-deflate result is handed on when there is one; and the request is
rejected, with status 400, if and only if zlib fails or yields no bytes and raw deflate
fails. -/
theorem Decompress_deflate_cases (codecs : Codecs) (contentType : String) (body : Bytes) :
    (∀ d, codecs.zlibDecode body = some d → d ≠ [] →
        Decompress codecs "deflate" contentType body = .next d "") ∧
    ((codecs.zlibDecode body = none ∨ codecs.zlibDecode body = some []) →
      ∀ d, codecs.flateDecode body = some d →
        Decompress codecs "deflate" contentType body = .next d "") ∧
    ((∃ status message, Decompress codecs "deflate" contentType body = .abort status message) ↔
      ((codecs.zlibDecode body = none ∨ codecs.zlibDecode body = some []) ∧
        codecs.flateDecode body = none)) ∧
    (∀ status message, Decompress codecs "deflate" contentType body = .abort status message →
      status = 400) := by
  rw [Decompress_deflate]
  cases hz : codecs.zlibDecode body with
  | none =>
    cases hf : codecs.flateDecode body with
    | none => simp
    | some d => simp
  | some z =>
    cases z with
    | nil =>
      cases hf : codecs.flateDecode body with
      | none => simp
      | some d => simp
    | cons b bs =>
      cases hf : codecs.flateDecode body with
      | none => simp
      | some d => simp

/-- C25 (the code at the failing input).  With Content-Encoding br the handler is run after
the body was read to its end and closed (the body is read before the `switch`, and the
`default` branch does not put it back): the body does not reach the handler. -/
theorem Decompress_unsupported_encoding_consumes_body (codecs : Codecs)
    (contentType : String) (body : Bytes) :
    Decompress codecs "br" contentType body = .nextConsumed "br" ∧
    Decompress codecs "br" contentType body ≠ .next body "br" := by
  have h1 : (("br" : String) == "") = false := by decide
  have h2 : ToLower "br" = "br" := by decide
  have h : Decompress codecs "br" contentType body = .nextConsumed "br" := by
    simp only [Decompress, h1, Bool.false_and, Bool.false_eq_true, if_false, h2]
    rfl
  rw [h]
  exact ⟨rfl, by simp⟩

/-! ## Governance: finalized proposals, thresholds -/

theorem checkAndFinalizeProposal_pending (threshold : Int) (db : DB) (pid : Int)
    (p : Proposal) (hsel : selectProposal db pid = some p)
    (hst : p.Status = ProposalStatusPending) :
    checkAndFinalizeProposal threshold db pid =
      if threshold ≤ p.AllowlistVotes then (finalizeTx db p pid PolicyAllowlist, none)
      else if threshold ≤ p.BlocklistVotes then (finalizeTx db p pid PolicyBlocklist, none)
      else (db, none) := by
  unfold checkAndFinalizeProposal
  simp only [hsel, hst, bne_self_eq_false, Bool.false_eq_true, if_false, ge_iff_le]
  by_cases h1 : threshold ≤ p.AllowlistVotes
  · simp only [h1, if_true]
    exact FinalizeProposal_of_pending db pid _ p (Or.inl rfl) hsel hst
  · simp only [h1, if_false]
    by_cases h2 : threshold ≤ p.BlocklistVotes
    · simp only [h2, if_true]
      exact FinalizeProposal_of_pending db pid _ p (Or.inr rfl) hsel hst
    · simp only [h2, if_false]

theorem selectProposal_recalculate_upsert (db : DB) (u pid : Int) (v : String) (p : Proposal)
    (hsel : selectProposal db pid = some p) :
    selectProposal (recalculateVotes (upsertVote db u pid v) pid).1 pid =
      some { p with
        AllowlistVotes := countVotes (upsertVote db u pid v) pid VoteTypeAllowlist,
        BlocklistVotes := countVotes (upsertVote db u pid v) pid VoteTypeBlocklist } := by
  have hsel1 : selectProposal (upsertVote db u pid v) pid = some p := by
    simpa [selectProposal, upsertVote_proposals] using hsel
  exact selectProposal_updateVoteCounts (upsertVote db u pid v) _ _ pid p hsel1

theorem SubmitVote_pending_eq (threshold : Int) (db : DB) (u pid : Int) (v : String)
    (p : Proposal) (hv : v = VoteTypeAllowlist ∨ v = VoteTypeBlocklist)
    (hsel : selectProposal db pid = some p) (hst : p.Status = ProposalStatusPending) :
    SubmitVote threshold db u pid v =
      (if threshold ≤ countVotes (upsertVote db u pid v) pid VoteTypeAllowlist then
          finalizeTx (recalculateVotes (upsertVote db u pid v) pid).1
            { p with
              AllowlistVotes := countVotes (upsertVote db u pid v) pid VoteTypeAllowlist,
              BlocklistVotes := countVotes (upsertVote db u pid v) pid VoteTypeBlocklist }
            pid PolicyAllowlist
        else if threshold ≤ countVotes (upsertVote db u pid v) pid VoteTypeBlocklist then
          finalizeTx (recalculateVotes (upsertVote db u pid v) pid).1
            { p with
              AllowlistVotes := countVotes (upsertVote db u pid v) pid VoteTypeAllowlist,
              BlocklistVotes := countVotes (upsertVote db u pid v) pid VoteTypeBlocklist }
            pid PolicyBlocklist
        else (recalculateVotes (upsertVote db u pid v) pid).1, none) := by
  rw [SubmitVote_of_pending threshold db u pid v p hv hsel hst]
  have h := checkAndFinalizeProposal_pending threshold
    (recalculateVotes (upsertVote db u pid v) pid).1 pid _
    (selectProposal_recalculate_upsert db u pid v p hsel) hst
  simp only [recalculateVotes] at h ⊢
  rw [h]
  split
  · rfl
  · split <;> rfl

theorem finalizeTx_rules (db : DB) (p : Proposal) (pid : Int) (policy : String) :
    (finalizeTx db p pid policy).rules = db.rules ++
      [{ ID := nextID (db.rules.map (fun r => r.ID)) db.rulesSeq, Identifier := p.Identifier,
         Policy := policy, RuleType := p.RuleType, CustomMessage := p.CustomMessage,
         Comment := none, CreatedBy := some p.CreatedBy, ProposalID := some pid }] := by
  rfl

theorem recalculate_upsert_rules (db : DB) (u pid : Int) (v : String) :
    (recalculateVotes (upsertVote db u pid v) pid).1.rules = db.rules ∧
    (recalculateVotes (upsertVote db u pid v) pid).1.rulesSeq = db.rulesSeq := by
  unfold recalculateVotes updateVoteCounts upsertVote
  split <;> exact ⟨rfl, rfl⟩

theorem selectProposal_finalizeTx (db : DB) (p q : Proposal) (pid : Int) (policy : String)
    (hsel : selectProposal db pid = some q) :
    selectProposal (finalizeTx db p pid policy) pid =
      some { q with Status := ProposalStatusApproved } := by
  have := selectProposal_updateStatus db ProposalStatusApproved pid q hsel
  simpa [finalizeTx, insertRule, selectProposal] using this

theorem countVotes_nonneg (db : DB) (pid : Int) (t : String) : 0 ≤ countVotes db pid t := by
  unfold countVotes
  exact Int.ofNat_nonneg _

theorem FinalizeProposal_not_pending_store (db : DB) (pid : Int) (policy : String)
    (p : Proposal) (hsel : selectProposal db pid = some p)
    (hst : p.Status ≠ ProposalStatusPending) :
    (FinalizeProposal db pid policy).1 = db := by
  unfold FinalizeProposal
  split
  · rfl
  · rename_i q hq
    unfold finalizeFetch at hq
    split at hq
    · cases hq
    · simp only [hsel] at hq
      split at hq
      · cases hq
      · rename_i hs
        exact absurd (by simpa using hs) hst

theorem SubmitVote_not_pending_store (threshold : Int) (db : DB) (u pid : Int) (v : String)
    (p : Proposal) (hsel : selectProposal db pid = some p)
    (hst : p.Status ≠ ProposalStatusPending) :
    (SubmitVote threshold db u pid v).1 = db := by
  unfold SubmitVote
  split
  · rfl
  · simp only [hsel]
    split
    · rfl
    · rename_i hs
      exact absurd (by simpa using hs) hst

/-- C27.  Let proposal `pid` be read with status APPROVED.  Any series of `SubmitVote`,
`FinalizeProposal` and `AdminApproveProposal` calls on it, with any voters, vote types and
policies, recognized or not, leaves the whole store as it was: the proposal row, its vote
rows and the rules table included. -/
theorem runOps_on_approved_unchanged (threshold : Int) (db : DB) (pid : Int) (p : Proposal)
    (ops : List Op) (hsel : selectProposal db pid = some p)
    (hst : p.Status = ProposalStatusApproved) (hops : ∀ op ∈ ops, opProposal op = pid) :
    runOps threshold db ops = db := by
  have hne : p.Status ≠ ProposalStatusPending := by rw [hst]; decide
  induction ops with
  | nil => rfl
  | cons op rest ih =>
    have hop : opProposal op = pid := hops op (List.mem_cons_self _ _)
    have hstep : applyOp threshold db op = db := by
      cases op with
      | submitVote u q v =>
        simp only [opProposal] at hop
        subst hop
        exact SubmitVote_not_pending_store threshold db u _ v p hsel hne
      | finalize q policy =>
        simp only [opProposal] at hop
        subst hop
        exact FinalizeProposal_not_pending_store db _ policy p hsel hne
      | adminApprove q policy =>
        simp only [opProposal] at hop
        subst hop
        exact FinalizeProposal_not_pending_store db _ policy p hsel hne
    simp only [runOps, List.foldl_cons, hstep]
    exact ih (fun op h => hops op (List.mem_cons_of_mem _ h))

theorem runOps_on_approved_unchanged_witness :
    runOps 3 approvedDB [.submitVote 5 1 "ALLOWLIST", .adminApprove 1 "BLOCKLIST",
      .finalize 1 "ALLOWLIST", .submitVote 6 1 "MAYBE", .finalize 1 "MAYBE"] = approvedDB :=
  runOps_on_approved_unchanged 3 approvedDB 1 (sampleProposal 1 ProposalStatusApproved 0 0) _
    (by decide) (by decide) (by decide)

/-- C30.  With a threshold of 0 or less, a `SubmitVote` with a recognized vote type on a
pending proposal `p` returns no error, leaves `p` APPROVED, and adds one rule made from `p`
with policy ALLOWLIST, whichever the vote type.  And `parseInt` gives 0 for a value that
`strconv.Atoi` rejects. -/
theorem SubmitVote_nonpositive_threshold (threshold : Int) (db : DB) (u pid : Int)
    (v : String) (p : Proposal) (hT : threshold ≤ 0)
    (hv : v = VoteTypeAllowlist ∨ v = VoteTypeBlocklist)
    (hsel : selectProposal db pid = some p) (hst : p.Status = ProposalStatusPending) :
    (SubmitVote threshold db u pid v).2 = none ∧
    (∃ q, selectProposal (SubmitVote threshold db u pid v).1 pid = some q ∧
      q.Status = ProposalStatusApproved) ∧
    (∃ id : Int, (SubmitVote threshold db u pid v).1.rules = db.rules ++
      [{ ID := id, Identifier := p.Identifier, Policy := PolicyAllowlist,
         RuleType := p.RuleType, CustomMessage := p.CustomMessage, Comment := none,
         CreatedBy := some p.CreatedBy, ProposalID := some pid }]) ∧
    (∀ (Atoi : String → Option Int) (value : String), Atoi value = none →
      parseInt Atoi value = 0) := by
  have ha : threshold ≤ countVotes (upsertVote db u pid v) pid VoteTypeAllowlist :=
    le_trans hT (countVotes_nonneg _ _ _)
  rw [SubmitVote_pending_eq threshold db u pid v p hv hsel hst]
  simp only [ha, if_true]
  refine ⟨trivial, ⟨_, selectProposal_finalizeTx _ _ _ pid _
    (selectProposal_recalculate_upsert db u pid v p hsel), rfl⟩, ?_, ?_⟩
  · refine ⟨nextID (db.rules.map (fun r => r.ID)) db.rulesSeq, ?_⟩
    rw [finalizeTx_rules, (recalculate_upsert_rules db u pid v).1,
      (recalculate_upsert_rules db u pid v).2]
  · intro Atoi value h
    simp [parseInt, h]

theorem SubmitVote_nonpositive_threshold_witness :
    (SubmitVote (parseInt (fun _ => none) "three") pendingDB 5 1 "BLOCKLIST").2 = none ∧
    (SubmitVote (parseInt (fun _ => none) "three") pendingDB 5 1 "BLOCKLIST").1.rules =
      [{ ID := 1, Identifier := "abc123", Policy := "ALLOWLIST", RuleType := "BINARY",
         CustomMessage := none, Comment := none, CreatedBy := some 7, ProposalID := some 1 }] :=
  have h := SubmitVote_nonpositive_threshold (parseInt (fun _ => none) "three") pendingDB 5 1
    "BLOCKLIST" (sampleProposal 1 ProposalStatusPending 0 0) (by decide) (Or.inr rfl)
    (by decide) (by decide)
  ⟨h.1, by decide⟩

theorem SubmitVote_store_cases (threshold : Int) (db : DB) (u pid : Int) (v : String) :
    (SubmitVote threshold db u pid v).1 = db ∨
    ∃ p, (v = VoteTypeAllowlist ∨ v = VoteTypeBlocklist) ∧ selectProposal db pid = some p ∧
      p.Status = ProposalStatusPending := by
  by_cases hv : v = VoteTypeAllowlist ∨ v = VoteTypeBlocklist
  · cases hsel : selectProposal db pid with
    | none =>
      left
      unfold SubmitVote
      split
      · rfl
      · simp only [hsel]
    | some p =>
      by_cases hst : p.Status = ProposalStatusPending
      · exact Or.inr ⟨p, hv, rfl, hst⟩
      · exact Or.inl (SubmitVote_not_pending_store threshold db u pid v p hsel hst)
  · left
    have h1 : v ≠ VoteTypeAllowlist := fun h => hv (Or.inl h)
    have h2 : v ≠ VoteTypeBlocklist := fun h => hv (Or.inr h)
    simp [SubmitVote, h1, h2]

theorem mem_recalculate_upsert (db : DB) (u pid : Int) (v : String) (q : Proposal)
    (hq : q ∈ (recalculateVotes (upsertVote db u pid v) pid).1.proposals) :
    ∃ q0 ∈ db.proposals,
      (q0.ID = pid ∧ q = { q0 with
        AllowlistVotes := countVotes (upsertVote db u pid v) pid VoteTypeAllowlist,
        BlocklistVotes := countVotes (upsertVote db u pid v) pid VoteTypeBlocklist }) ∨
      (q0.ID ≠ pid ∧ q = q0) := by
  simp only [recalculateVotes, updateVoteCounts, List.mem_map, upsertVote_proposals] at hq
  obtain ⟨q0, hq0, rfl⟩ := hq
  refine ⟨q0, hq0, ?_⟩
  by_cases hid : q0.ID = pid
  · left; simp [hid]
  · right; simp [hid]

theorem mem_finalizeTx (db : DB) (p : Proposal) (pid : Int) (policy : String) (q : Proposal)
    (hq : q ∈ (finalizeTx db p pid policy).proposals) :
    ∃ q0 ∈ db.proposals,
      (q0.ID = pid ∧ q = { q0 with Status := ProposalStatusApproved }) ∨
      (q0.ID ≠ pid ∧ q = q0) := by
  simp only [finalizeTx, insertRule, updateStatus, List.mem_map] at hq
  obtain ⟨q0, hq0, rfl⟩ := hq
  refine ⟨q0, hq0, ?_⟩
  by_cases hid : q0.ID = pid
  · left; simp [hid]
  · right; simp [hid]

theorem PendingBelow_SubmitVote (threshold : Int) (db : DB) (u pid : Int) (v : String)
    (h : PendingBelow threshold db) :
    PendingBelow threshold (SubmitVote threshold db u pid v).1 := by
  rcases SubmitVote_store_cases threshold db u pid v with hsame | ⟨p, hv, hsel, hst⟩
  · rw [hsame]; exact h
  · rw [SubmitVote_pending_eq threshold db u pid v p hv hsel hst]
    have hfin : ∀ policy q,
        q ∈ (finalizeTx (recalculateVotes (upsertVote db u pid v) pid).1
          { p with
            AllowlistVotes := countVotes (upsertVote db u pid v) pid VoteTypeAllowlist,
            BlocklistVotes := countVotes (upsertVote db u pid v) pid VoteTypeBlocklist }
          pid policy).proposals →
        q.Status = ProposalStatusPending →
        q.AllowlistVotes < threshold ∧ q.BlocklistVotes < threshold := by
      intro policy q hq hpend
      obtain ⟨q1, hq1, hcase⟩ := mem_finalizeTx _ _ _ _ _ hq
      rcases hcase with ⟨_, rfl⟩ | ⟨hne, rfl⟩
      · exact absurd hpend
          (show ¬ ProposalStatusApproved = ProposalStatusPending by decide)
      · obtain ⟨q0, hq0, hcase0⟩ := mem_recalculate_upsert db u pid v _ hq1
        rcases hcase0 with ⟨heq, rfl⟩ | ⟨_, rfl⟩
        · exact absurd heq hne
        · exact h _ hq0 hpend
    by_cases h1 : threshold ≤ countVotes (upsertVote db u pid v) pid VoteTypeAllowlist
    · simp only [h1, if_true]
      exact hfin _
    · by_cases h2 : threshold ≤ countVotes (upsertVote db u pid v) pid VoteTypeBlocklist
      · simp only [h1, h2, if_true, if_false]
        exact hfin _
      · simp only [h1, h2, if_false]
        intro q hq hpend
        obtain ⟨q0, hq0, hcase0⟩ := mem_recalculate_upsert db u pid v _ hq
        rcases hcase0 with ⟨_, rfl⟩ | ⟨_, rfl⟩
        · exact ⟨not_le.mp h1, not_le.mp h2⟩
        · exact h _ hq0 hpend

theorem PendingBelow_voteOps (threshold : Int) (votes : List (Int × Int × String)) (db : DB)
    (h : PendingBelow threshold db) :
    PendingBelow threshold (runOps threshold db (voteOps votes)) := by
  induction votes generalizing db with
  | nil => exact h
  | cons x rest ih => exact ih _ (PendingBelow_SubmitVote threshold db x.1 x.2.1 x.2.2 h)

theorem filter_type_map_retype_le (votes : List Vote) (u pid : Int) (v t : String)
    (hne : v ≠ t) :
    ((votes.map (fun x => if sameVoteKey u pid x then { x with VoteType := v } else x)).filter
        (fun x => x.ProposalID == pid && x.VoteType == t)).length ≤
      (votes.filter (fun x => x.ProposalID == pid && x.VoteType == t)).length := by
  induction votes with
  | nil => simp
  | cons x rest ih =>
    rw [List.map_cons, List.filter_cons, List.filter_cons]
    by_cases hk : sameVoteKey u pid x = true
    · simp only [hk, if_true]
      have hvt : (v == t) = false := by simpa using hne
      simp only [hvt, Bool.and_false, Bool.false_eq_true, if_false]
      split
      · simp only [List.length_cons]; omega
      · exact ih
    · simp only [hk, Bool.false_eq_true, if_false]
      split
      · simp only [List.length_cons]; omega
      · exact ih

theorem countVotes_upsertVote_le (db : DB) (u pid : Int) (v t : String) (hne : v ≠ t) :
    countVotes (upsertVote db u pid v) pid t ≤ countVotes db pid t := by
  unfold countVotes upsertVote
  split
  · exact Int.ofNat_le.mpr (filter_type_map_retype_le db.votes u pid v t hne)
  · simp [List.filter_append, hne]

/-- C29.  Let the threshold be at least 1, and start from a store whose ledger is empty and
whose proposals all have both counters 0.  After any series of `SubmitVote` calls every
pending proposal has both counters below the threshold; and a further `SubmitVote` of vote
type `v` on proposal `pid` either leaves the rules table as it is or appends exactly one
rule, whose policy is `v` and whose proposal is `pid`. -/
theorem voteOps_pending_below_threshold (threshold : Int) (db : DB)
    (votes : List (Int × Int × String)) (hT : 1 ≤ threshold) (hvotes : db.votes = [])
    (hzero : ∀ p ∈ db.proposals, p.AllowlistVotes = 0 ∧ p.BlocklistVotes = 0) :
    (∀ p ∈ (runOps threshold db (voteOps votes)).proposals,
      p.Status = ProposalStatusPending →
        p.AllowlistVotes < threshold ∧ p.BlocklistVotes < threshold) ∧
    ∀ (u pid : Int) (v : String),
      (SubmitVote threshold (runOps threshold db (voteOps votes)) u pid v).1.rules =
          (runOps threshold db (voteOps votes)).rules ∨
      ∃ r, (SubmitVote threshold (runOps threshold db (voteOps votes)) u pid v).1.rules =
          (runOps threshold db (voteOps votes)).rules ++ [r] ∧
        r.Policy = v ∧ r.ProposalID = some pid := by
  have hbelow0 : PendingBelow threshold db := by
    intro p hp _
    rw [(hzero p hp).1, (hzero p hp).2]
    exact ⟨by omega, by omega⟩
  have hmatch0 : CountersMatch db := by
    intro p hp
    simp [countVotes, hvotes, hzero p hp]
  have hbelow := PendingBelow_voteOps threshold votes db hbelow0
  have hmatch := CountersMatch_runOps threshold (voteOps votes) db hmatch0
  refine ⟨hbelow, ?_⟩
  generalize runOps threshold db (voteOps votes) = s at hbelow hmatch
  intro u pid v
  rcases SubmitVote_store_cases threshold s u pid v with hsame | ⟨p, hv, hsel, hst⟩
  · left; rw [hsame]
  · have hmem := selectProposal_mem s pid p hsel
    have hid := selectProposal_id s pid p hsel
    have hlt := hbelow p hmem hst
    have hcnt := hmatch p hmem
    rw [hid] at hcnt
    rw [SubmitVote_pending_eq threshold s u pid v p hv hsel hst]
    have hr := (recalculate_upsert_rules s u pid v).1
    by_cases h1 : threshold ≤ countVotes (upsertVote s u pid v) pid VoteTypeAllowlist
    · right
      simp only [h1, if_true]
      refine ⟨_, by rw [finalizeTx_rules, hr], ?_, rfl⟩
      rcases hv with hv | hv
      · exact hv.symm
      · exfalso
        have hle := countVotes_upsertVote_le s u pid v VoteTypeAllowlist
          (by rw [hv]; decide)
        omega
    · by_cases h2 : threshold ≤ countVotes (upsertVote s u pid v) pid VoteTypeBlocklist
      · right
        simp only [h1, h2, if_true, if_false]
        refine ⟨_, by rw [finalizeTx_rules, hr], ?_, rfl⟩
        rcases hv with hv | hv
        · exfalso
          have hle := countVotes_upsertVote_le s u pid v VoteTypeBlocklist
            (by rw [hv]; decide)
          omega
        · exact hv.symm
      · left
        simp only [h1, h2, if_false]
        exact hr

theorem voteOps_pending_below_threshold_witness :
    (∀ p ∈ (runOps 2 pendingDB (voteOps [(1, 1, "ALLOWLIST"), (2, 1, "BLOCKLIST"),
        (1, 1, "BLOCKLIST")])).proposals,
      p.Status = ProposalStatusPending → p.AllowlistVotes < 2 ∧ p.BlocklistVotes < 2) ∧
    (runOps 2 pendingDB (voteOps [(1, 1, "ALLOWLIST"), (2, 1, "BLOCKLIST"),
        (1, 1, "BLOCKLIST")])).rules.map (fun r => (r.Policy, r.ProposalID)) =
      [("BLOCKLIST", some 1)] :=
  have h := voteOps_pending_below_threshold 2 pendingDB
    [(1, 1, "ALLOWLIST"), (2, 1, "BLOCKLIST"), (1, 1, "BLOCKLIST")] (by decide) rfl
    (by decide)
  ⟨h.1, by decide⟩

/-! ## The status of a proposal -/

theorem StatusStep_refl (p : Proposal) : StatusStep p p :=
  ⟨rfl, Or.inl rfl⟩

theorem StatusStep_trans (a b c : Proposal) (h1 : StatusStep a b) (h2 : StatusStep b c) :
    StatusStep a c := by
  refine ⟨h2.1.trans h1.1, ?_⟩
  rcases h1.2 with e1 | ⟨p1, a1⟩
  · rcases h2.2 with e2 | ⟨p2, a2⟩
    · exact Or.inl (e2.trans e1)
    · exact Or.inr ⟨e1 ▸ p2, a2⟩
  · rcases h2.2 with e2 | ⟨p2, _⟩
    · exact Or.inr ⟨p1, e2.trans a1⟩
    · rw [a1] at p2
      exact absurd p2 (by decide)

theorem forall₂_StatusStep_map (l : List Proposal) (f : Proposal → Proposal)
    (h : ∀ x ∈ l, StatusStep x (f x)) : List.Forall₂ StatusStep l (l.map f) := by
  induction l with
  | nil => exact List.Forall₂.nil
  | cons x rest ih =>
    exact List.Forall₂.cons (h x (List.mem_cons_self _ _))
      (ih (fun y hy => h y (List.mem_cons_of_mem _ hy)))

theorem forall₂_StatusStep_refl (l : List Proposal) : List.Forall₂ StatusStep l l := by
  simpa using forall₂_StatusStep_map l id (fun x _ => StatusStep_refl x)

theorem forall₂_StatusStep_trans (a b c : List Proposal)
    (h1 : List.Forall₂ StatusStep a b) (h2 : List.Forall₂ StatusStep b c) :
    List.Forall₂ StatusStep a c := by
  induction h1 generalizing c with
  | nil => cases h2; exact List.Forall₂.nil
  | cons hxy _ ih =>
    cases h2 with
    | cons hyz hrest => exact List.Forall₂.cons (StatusStep_trans _ _ _ hxy hyz) (ih _ hrest)

theorem forall₂_StatusStep_ids (a b : List Proposal) (h : List.Forall₂ StatusStep a b) :
    b.map (fun p => p.ID) = a.map (fun p => p.ID) := by
  induction h with
  | nil => rfl
  | cons hxy _ ih => simp [hxy.1, ih]

theorem forall₂_StatusStep_mem (a b : List Proposal) (h : List.Forall₂ StatusStep a b)
    (q : Proposal) (hq : q ∈ b) : ∃ p ∈ a, StatusStep p q := by
  induction h with
  | nil => cases hq
  | cons hxy _ ih =>
    rcases List.mem_cons.mp hq with e | hmem
    · subst e; exact ⟨_, List.mem_cons_self _ _, hxy⟩
    · obtain ⟨p, hp, hs⟩ := ih hmem
      exact ⟨p, List.mem_cons_of_mem _ hp, hs⟩

theorem selectProposal_unique (db : DB) (pid : Int) (p q : Proposal)
    (hnodup : (db.proposals.map (fun p => p.ID)).Nodup)
    (hsel : selectProposal db pid = some p) (hq : q ∈ db.proposals) (hid : q.ID = pid) :
    q = p :=
  List.inj_on_of_nodup_map hnodup hq (selectProposal_mem db pid p hsel)
    (hid.trans (selectProposal_id db pid p hsel).symm)

theorem finalizeFetch_ok (db : DB) (pid : Int) (policy : String) (p : Proposal)
    (h : finalizeFetch db pid policy = .ok p) :
    selectProposal db pid = some p ∧ p.Status = ProposalStatusPending := by
  unfold finalizeFetch at h
  split at h
  · cases h
  · split at h
    · cases h
    · rename_i q hq
      split at h
      · cases h
      · rename_i hs
        cases h
        exact ⟨hq, by simpa using hs⟩

theorem StatusStep_FinalizeProposal (db : DB) (pid : Int) (policy : String)
    (hnodup : (db.proposals.map (fun p => p.ID)).Nodup) :
    List.Forall₂ StatusStep db.proposals (FinalizeProposal db pid policy).1.proposals := by
  unfold FinalizeProposal
  cases hf : finalizeFetch db pid policy with
  | error e => exact forall₂_StatusStep_refl db.proposals
  | ok p =>
    obtain ⟨hsel, hst⟩ := finalizeFetch_ok db pid policy p hf
    show List.Forall₂ StatusStep db.proposals (db.proposals.map _)
    apply forall₂_StatusStep_map
    intro x hx
    by_cases hid : x.ID = pid
    · have hxp := selectProposal_unique db pid p x hnodup hsel hx hid
      have hxst : x.Status = ProposalStatusPending := hxp ▸ hst
      have hb : (x.ID == pid) = true := by simpa using hid
      simp only [hb, if_true]
      exact ⟨rfl, Or.inr ⟨hxst, rfl⟩⟩
    · have hb : (x.ID == pid) = false := by simpa using hid
      simp only [hb, Bool.false_eq_true, if_false]
      exact StatusStep_refl x

theorem StatusStep_checkAndFinalizeProposal (threshold : Int) (db : DB) (pid : Int)
    (hnodup : (db.proposals.map (fun p => p.ID)).Nodup) :
    List.Forall₂ StatusStep db.proposals
      (checkAndFinalizeProposal threshold db pid).1.proposals := by
  have hrefl := forall₂_StatusStep_refl db.proposals
  unfold checkAndFinalizeProposal
  split
  · exact hrefl
  · split
    · exact hrefl
    · split
      · exact StatusStep_FinalizeProposal db pid _ hnodup
      · split
        · exact StatusStep_FinalizeProposal db pid _ hnodup
        · exact hrefl

theorem StatusStep_SubmitVote (threshold : Int) (db : DB) (u pid : Int) (v : String)
    (hnodup : (db.proposals.map (fun p => p.ID)).Nodup) :
    List.Forall₂ StatusStep db.proposals (SubmitVote threshold db u pid v).1.proposals := by
  have hrefl := forall₂_StatusStep_refl db.proposals
  rcases SubmitVote_store_cases threshold db u pid v with hsame | ⟨p, hv, hsel, hst⟩
  · rw [hsame]; exact hrefl
  · rw [SubmitVote_of_pending threshold db u pid v p hv hsel hst]
    have h1 : List.Forall₂ StatusStep db.proposals
        (updateVoteCounts (upsertVote db u pid v)
          (countVotes (upsertVote db u pid v) pid VoteTypeAllowlist)
          (countVotes (upsertVote db u pid v) pid VoteTypeBlocklist) pid).proposals := by
      simp only [updateVoteCounts, upsertVote_proposals]
      apply forall₂_StatusStep_map
      intro x _
      split
      · exact ⟨rfl, Or.inl rfl⟩
      · exact StatusStep_refl x
    have hnodup1 := hnodup
    rw [← forall₂_StatusStep_ids _ _ h1] at hnodup1
    exact forall₂_StatusStep_trans _ _ _ h1
      (StatusStep_checkAndFinalizeProposal threshold _ pid hnodup1)

theorem StatusStep_runOps (threshold : Int) (ops : List Op) (db : DB)
    (hnodup : (db.proposals.map (fun p => p.ID)).Nodup) :
    List.Forall₂ StatusStep db.proposals (runOps threshold db ops).proposals := by
  induction ops generalizing db with
  | nil => exact forall₂_StatusStep_refl db.proposals
  | cons op rest ih =>
    have hstep : List.Forall₂ StatusStep db.proposals (applyOp threshold db op).proposals := by
      cases op with
      | submitVote u pid v => exact StatusStep_SubmitVote threshold db u pid v hnodup
      | finalize pid policy => exact StatusStep_FinalizeProposal db pid policy hnodup
      | adminApprove pid policy => exact StatusStep_FinalizeProposal db pid policy hnodup
    have hnodup1 := hnodup
    rw [← forall₂_StatusStep_ids _ _ hstep] at hnodup1
    exact forall₂_StatusStep_trans _ _ _ hstep (ih _ hnodup1)

/-- C28.  Start from a store whose proposals have distinct ids and none of which is
REJECTED, and make any series of `SubmitVote`, `FinalizeProposal` and
`AdminApproveProposal` calls, under any threshold.  The store reached has no REJECTED
proposal; its proposals are, row for row, those of the start with the same id and either
the same status or a change from PENDING to APPROVED; and a `checkAndFinalizeProposal`
made in it changes statuses in the same way only. -/
theorem runOps_never_rejects (threshold : Int) (db : DB) (ops : List Op)
    (hnodup : (db.proposals.map (fun p => p.ID)).Nodup)
    (hno : ∀ p ∈ db.proposals, p.Status ≠ ProposalStatusRejected) :
    (∀ p ∈ (runOps threshold db ops).proposals, p.Status ≠ ProposalStatusRejected) ∧
    List.Forall₂ StatusStep db.proposals (runOps threshold db ops).proposals ∧
    ∀ pid, List.Forall₂ StatusStep (runOps threshold db ops).proposals
      (checkAndFinalizeProposal threshold (runOps threshold db ops) pid).1.proposals := by
  have hsteps := StatusStep_runOps threshold ops db hnodup
  refine ⟨?_, hsteps, ?_⟩
  · intro q hq
    obtain ⟨p, hp, hs⟩ := forall₂_StatusStep_mem _ _ hsteps q hq
    rcases hs.2 with e | ⟨_, a⟩
    · rw [e]; exact hno p hp
    · rw [a]; decide
  · intro pid
    have hnodup1 := hnodup
    rw [← forall₂_StatusStep_ids _ _ hsteps] at hnodup1
    exact StatusStep_checkAndFinalizeProposal threshold _ pid hnodup1

theorem runOps_never_rejects_witness :
    (∀ p ∈ (runOps 1 pendingDB [.submitVote 5 1 "BLOCKLIST", .finalize 1 "ALLOWLIST",
        .adminApprove 1 "BLOCKLIST"]).proposals, p.Status ≠ ProposalStatusRejected) ∧
    (runOps 1 pendingDB [.submitVote 5 1 "BLOCKLIST", .finalize 1 "ALLOWLIST",
        .adminApprove 1 "BLOCKLIST"]).proposals.map (fun p => p.Status) = ["APPROVED"] :=
  have h := runOps_never_rejects 1 pendingDB [.submitVote 5 1 "BLOCKLIST",
    .finalize 1 "ALLOWLIST", .adminApprove 1 "BLOCKLIST"] (by decide) (by decide)
  ⟨h.1, by decide⟩

/-! ## From three votes to the rule download -/

theorem upsertVote_new_voter (db : DB) (u pid : Int) (v : String)
    (hnew : ∀ x ∈ db.votes, x.ProposalID = pid → x.UserID ≠ u) :
    (upsertVote db u pid v).votes = db.votes ++
      [{ ID := nextID (db.votes.map (fun x => x.ID)) db.votesSeq, UserID := u,
         ProposalID := pid, VoteType := v }] := by
  have hany : db.votes.any (sameVoteKey u pid) = false := by
    rw [Bool.eq_false_iff]
    intro h
    obtain ⟨x, hx, hkey⟩ := List.any_eq_true.mp h
    simp [sameVoteKey] at hkey
    exact hnew x hx hkey.2 hkey.1
  unfold upsertVote
  simp [hany]

theorem countVotes_upsertVote_new_voter (db : DB) (u pid : Int) (v t : String)
    (hnew : ∀ x ∈ db.votes, x.ProposalID = pid → x.UserID ≠ u) :
    countVotes (upsertVote db u pid v) pid t =
      countVotes db pid t + (if v = t then 1 else 0) := by
  unfold countVotes
  rw [upsertVote_new_voter db u pid v hnew, List.filter_append]
  by_cases h : v = t <;> simp [h]

theorem SubmitVote_allow_new_voter (threshold : Int) (db : DB) (u pid : Int) (p : Proposal)
    (k : Int) (hsel : selectProposal db pid = some p)
    (hst : p.Status = ProposalStatusPending)
    (hnew : ∀ x ∈ db.votes, x.ProposalID = pid → x.UserID ≠ u)
    (ha : countVotes db pid VoteTypeAllowlist = k)
    (hb : countVotes db pid VoteTypeBlocklist = 0) :
    (SubmitVote threshold db u pid VoteTypeAllowlist).1 =
      (if threshold ≤ k + 1 then
          finalizeTx (recalculateVotes (upsertVote db u pid VoteTypeAllowlist) pid).1
            { p with AllowlistVotes := k + 1, BlocklistVotes := 0 } pid PolicyAllowlist
        else if threshold ≤ 0 then
          finalizeTx (recalculateVotes (upsertVote db u pid VoteTypeAllowlist) pid).1
            { p with AllowlistVotes := k + 1, BlocklistVotes := 0 } pid PolicyBlocklist
        else (recalculateVotes (upsertVote db u pid VoteTypeAllowlist) pid).1) ∧
    selectProposal (recalculateVotes (upsertVote db u pid VoteTypeAllowlist) pid).1 pid =
      some { p with AllowlistVotes := k + 1, BlocklistVotes := 0 } ∧
    countVotes (recalculateVotes (upsertVote db u pid VoteTypeAllowlist) pid).1 pid
      VoteTypeAllowlist = k + 1 ∧
    countVotes (recalculateVotes (upsertVote db u pid VoteTypeAllowlist) pid).1 pid
      VoteTypeBlocklist = 0 ∧
    (∀ x ∈ (recalculateVotes (upsertVote db u pid VoteTypeAllowlist) pid).1.votes,
      x.ProposalID = pid → x.UserID = u ∨ x ∈ db.votes) := by
  have hca : countVotes (upsertVote db u pid VoteTypeAllowlist) pid VoteTypeAllowlist =
      k + 1 := by
    rw [countVotes_upsertVote_new_voter db u pid _ _ hnew, ha]; simp
  have hcb : countVotes (upsertVote db u pid VoteTypeAllowlist) pid VoteTypeBlocklist = 0 := by
    rw [countVotes_upsertVote_new_voter db u pid _ _ hnew, hb]; decide
  have hvotes : (recalculateVotes (upsertVote db u pid VoteTypeAllowlist) pid).1.votes =
      (upsertVote db u pid VoteTypeAllowlist).votes := rfl
  refine ⟨?_, ?_, ?_, ?_, ?_⟩
  · rw [SubmitVote_pending_eq threshold db u pid _ p (Or.inl rfl) hsel hst, hca, hcb]
  · have h := selectProposal_recalculate_upsert db u pid VoteTypeAllowlist p hsel
    rw [hca, hcb] at h
    exact h
  · rw [countVotes_congr _ _ hvotes, hca]
  · rw [countVotes_congr _ _ hvotes, hcb]
  · intro x hx _
    rw [hvotes, upsertVote_new_voter db u pid _ hnew] at hx
    rcases List.mem_append.mp hx with h | h
    · exact Or.inr h
    · simp at h; subst h; exact Or.inl rfl

theorem RuleDownload_contains (rules : List Rule) (cursor : String) (r : Rule)
    (hr : r ∈ rules) (hpos : 0 < r.ID) (hlen : rules.length ≤ 100) (hcursor : cursor = "") :
    (scanRule r).2 ∈ (RuleDownload rules cursor).rules := by
  subst hcursor
  rw [RuleDownload_eq]
  apply List.mem_map_of_mem
  unfold ruleDownloadRows selectRulesAfter
  rw [ruleDownloadStartID_eq]
  have hfl : (rules.filter (fun x => decide (x.ID > 0))).length ≤ 100 :=
    le_trans (List.length_filter_le _ _) hlen
  rw [List.take_of_length_le (by rw [List.length_insertionSort]; exact hfl)]
  rw [(List.perm_insertionSort _ _).mem_iff]
  exact List.mem_filter.mpr ⟨hr, by simpa using hpos⟩

set_option maxRecDepth 100000 in
/-- C26 (counterexample).  In `fullPageDB` 100 rules exist and proposal 1 is pending without
votes.  After three voters vote ALLOWLIST (threshold 3) the proposal is APPROVED and its
rule is in the table with id 101, but the page `RuleDownload` returns is the rules 1 to
100: no rule of the page has the identifier of the proposal. -/
theorem three_votes_rule_beyond_first_page :
    (selectProposal (runOps 3 fullPageDB [.submitVote 1 1 "ALLOWLIST",
        .submitVote 2 1 "ALLOWLIST", .submitVote 3 1 "ALLOWLIST"]) 1).map
      (fun p => (p.Status, p.Identifier)) = some ("APPROVED", "abc123") ∧
    ((runOps 3 fullPageDB [.submitVote 1 1 "ALLOWLIST", .submitVote 2 1 "ALLOWLIST",
        .submitVote 3 1 "ALLOWLIST"]).rules.filter (fun r => r.Identifier == "abc123")).map
      (fun r => (r.ID, r.Policy)) = [(101, "ALLOWLIST")] ∧
    (RuleDownload (runOps 3 fullPageDB [.submitVote 1 1 "ALLOWLIST",
        .submitVote 2 1 "ALLOWLIST", .submitVote 3 1 "ALLOWLIST"]).rules "").rules.all
      (fun r => r.Identifier != "abc123") = true := by
  decide

/-- C26 (amended).  Let the threshold be 3, and let the store hold fewer than 100 rules and
a proposal `p` that is pending and has no vote.  After three distinct voters each submit
an ALLOWLIST vote on `p`, `p` is APPROVED, and a `RuleDownload` call without a cursor
returns a page that contains a rule with the identifier of `p` and the policy ALLOWLIST. -/
theorem three_votes_rule_downloaded (db : DB) (pid : Int) (p : Proposal) (u1 u2 u3 : Int)
    (hsel : selectProposal db pid = some p)
    (hst : p.Status = ProposalStatusPending)
    (hnovotes : ∀ x ∈ db.votes, x.ProposalID ≠ pid)
    (h12 : u1 ≠ u2) (h13 : u1 ≠ u3) (h23 : u2 ≠ u3)
    (hrules : db.rules.length < 100) (hseq : 0 ≤ db.rulesSeq) :
    (∃ q, selectProposal (runOps 3 db [.submitVote u1 pid VoteTypeAllowlist,
        .submitVote u2 pid VoteTypeAllowlist, .submitVote u3 pid VoteTypeAllowlist]) pid =
        some q ∧ q.Status = ProposalStatusApproved) ∧
    ∃ r ∈ (RuleDownload (runOps 3 db [.submitVote u1 pid VoteTypeAllowlist,
        .submitVote u2 pid VoteTypeAllowlist, .submitVote u3 pid VoteTypeAllowlist]).rules
        "").rules,
      r.Identifier = p.Identifier ∧ r.Policy = PolicyAllowlist := by
  have hcount0 : ∀ t, countVotes db pid t = 0 := by
    intro t
    unfold countVotes
    rw [List.filter_eq_nil_iff.mpr]
    · rfl
    · intro x hx
      simp [hnovotes x hx]
  -- first vote
  obtain ⟨e1, s1, a1, b1, v1⟩ := SubmitVote_allow_new_voter 3 db u1 pid p 0 hsel hst
    (fun x hx hp => absurd hp (hnovotes x hx)) (hcount0 _) (hcount0 _)
  have r1 := recalculate_upsert_rules db u1 pid VoteTypeAllowlist
  simp only [show ¬ ((3 : Int) ≤ 0 + 1) by decide, show ¬ ((3 : Int) ≤ 0) by decide,
    if_false] at e1
  generalize (recalculateVotes (upsertVote db u1 pid VoteTypeAllowlist) pid).1 = d1
    at e1 s1 a1 b1 v1 r1
  -- second vote
  have hnew2 : ∀ x ∈ d1.votes, x.ProposalID = pid → x.UserID ≠ u2 := by
    intro x hx hp
    rcases v1 x hx hp with h | h
    · rw [h]; exact h12
    · exact absurd hp (hnovotes x h)
  obtain ⟨e2, s2, a2, b2, v2⟩ := SubmitVote_allow_new_voter 3 d1 u2 pid _ (0 + 1) s1 hst
    hnew2 a1 b1
  have r2 := recalculate_upsert_rules d1 u2 pid VoteTypeAllowlist
  simp only [show ¬ ((3 : Int) ≤ 0 + 1 + 1) by decide, show ¬ ((3 : Int) ≤ 0) by decide,
    if_false] at e2
  generalize (recalculateVotes (upsertVote d1 u2 pid VoteTypeAllowlist) pid).1 = d2
    at e2 s2 a2 b2 v2 r2
  -- third vote
  have hnew3 : ∀ x ∈ d2.votes, x.ProposalID = pid → x.UserID ≠ u3 := by
    intro x hx hp
    rcases v2 x hx hp with h | h
    · rw [h]; exact h23
    · rcases v1 x h hp with h1 | h1
      · rw [h1]; exact h13
      · exact absurd hp (hnovotes x h1)
  obtain ⟨e3, s3, _, _, _⟩ := SubmitVote_allow_new_voter 3 d2 u3 pid _ (0 + 1 + 1) s2 hst
    hnew3 a2 b2
  have r3 := recalculate_upsert_rules d2 u3 pid VoteTypeAllowlist
  simp only [show ((3 : Int) ≤ 0 + 1 + 1 + 1) by decide, if_true] at e3
  generalize (recalculateVotes (upsertVote d2 u3 pid VoteTypeAllowlist) pid).1 = d3
    at e3 s3 r3
  have hfinal : runOps 3 db [.submitVote u1 pid VoteTypeAllowlist,
      .submitVote u2 pid VoteTypeAllowlist, .submitVote u3 pid VoteTypeAllowlist] =
      finalizeTx d3 { p with AllowlistVotes := 0 + 1 + 1 + 1, BlocklistVotes := 0 } pid
        PolicyAllowlist := by
    simp only [runOps, List.foldl_cons, List.foldl_nil, applyOp]
    rw [e1, e2, e3]
  rw [hfinal]
  refine ⟨⟨_, selectProposal_finalizeTx d3 _ _ pid PolicyAllowlist s3, rfl⟩, ?_⟩
  have hd3rules : d3.rules = db.rules := by rw [r3.1, r2.1, r1.1]
  have hd3seq : d3.rulesSeq = db.rulesSeq := by rw [r3.2, r2.2, r1.2]
  have hpos : 0 < nextID (d3.rules.map (fun r => r.ID)) d3.rulesSeq := by
    have := (nextID_fresh (d3.rules.map (fun r => r.ID)) d3.rulesSeq).1
    rw [hd3seq] at this ⊢
    omega
  refine ⟨_, RuleDownload_contains _ ""
    { ID := nextID (d3.rules.map (fun r => r.ID)) d3.rulesSeq, Identifier := p.Identifier,
      Policy := PolicyAllowlist, RuleType := p.RuleType, CustomMessage := p.CustomMessage,
      Comment := none, CreatedBy := some p.CreatedBy, ProposalID := some pid } ?_ hpos ?_ rfl,
    rfl, rfl⟩
  · rw [finalizeTx_rules]
    simp
  · rw [finalizeTx_rules, hd3rules]
    simp only [List.length_append, List.length_cons, List.length_nil]
    omega

theorem three_votes_rule_downloaded_witness :
    (∃ q, selectProposal (runOps 3 pendingDB [.submitVote 1 1 VoteTypeAllowlist,
        .submitVote 2 1 VoteTypeAllowlist, .submitVote 3 1 VoteTypeAllowlist]) 1 =
        some q ∧ q.Status = ProposalStatusApproved) ∧
    ∃ r ∈ (RuleDownload (runOps 3 pendingDB [.submitVote 1 1 VoteTypeAllowlist,
        .submitVote 2 1 VoteTypeAllowlist, .submitVote 3 1 VoteTypeAllowlist]).rules
        "").rules,
      r.Identifier = "abc123" ∧ r.Policy = PolicyAllowlist :=
  three_votes_rule_downloaded pendingDB 1 (sampleProposal 1 ProposalStatusPending 0 0) 1 2 3
    (by decide) (by decide) (by decide) (by decide) (by decide) (by decide) (by decide)
    (by decide)

end Krampus
